import Mathlib

/-!
Verification development for the lksfy link-resolver bot (`src/bp.py`).

The Python program is shallowly embedded: pure helpers become Lean
functions on `String` / `List Char`; the fixed regular expressions of the
source are hand-compiled into executable matchers with Python `re`
backtracking semantics; network and HTML-parsing effects (requests,
BeautifulSoup) are modelled by an explicit environment of oracles and an
explicit log of issued network calls.  Character classes (`\s`, `\d`,
`str.lower`, `str.title`) are modelled over ASCII.
-/

namespace Bp

/-- ASCII lower-casing of one character, modelling Python `str.lower` per char. -/
def lc (c : Char) : Char := c.toLower

/-- Python `\s` whitespace class (ASCII part): space, tab, LF, CR, VT, FF. -/
def isWS (c : Char) : Bool :=
  c = ' ' || c = '\t' || c = '\n' || c = '\r' || c = Char.ofNat 11 || c = Char.ofNat 12

/-- Python `\d` digit class (ASCII part). -/
def isDigitC (c : Char) : Bool := c.isDigit

/-- The dash family accepted by the episode regexes: hyphen, en dash, em dash. -/
def isDash (c : Char) : Bool := c = '-' || c = '–' || c = '—'

/-- Alphanumeric class `[A-Za-z0-9]` of the id regexes. -/
def isAlnum (c : Char) : Bool := c.isAlpha || c.isDigit

/-- One pass collapsing every whitespace run to a single space (inner part of
`_collapse_spaces`, which is `re.sub(r"\s+", " ", s)`). -/
def squeeze : List Char → List Char
  | [] => []
  | [c] => if isWS c then [' '] else [c]
  | c1 :: c2 :: rest =>
    if isWS c1 && isWS c2 then squeeze (c2 :: rest)
    else (if isWS c1 then ' ' else c1) :: squeeze (c2 :: rest)

/-- Python `str.strip` over the modelled whitespace class. -/
def trimWS (s : List Char) : List Char :=
  ((s.dropWhile isWS).reverse.dropWhile isWS).reverse

/-- Model of `_collapse_spaces`: `re.sub(r"\s+", " ", s or "").strip()`. -/
def collapseSpaces (s : String) : String := ⟨trimWS (squeeze s.data)⟩

/-- Python `str.strip()` on a string. -/
def pyStrip (s : String) : String := ⟨trimWS s.data⟩

/-- Python `str.lower()` (ASCII model). -/
def lowerStr (s : String) : String := ⟨s.data.map lc⟩

/-- Python `str.title()` (ASCII model): a cased character following a
non-cased character is upper-cased, any other cased character is
lower-cased. -/
def pyTitleAux : Bool → List Char → List Char
  | _, [] => []
  | prevCased, c :: cs =>
    if c.isAlpha then (if prevCased then lc c else c.toUpper) :: pyTitleAux true cs
    else c :: pyTitleAux false cs

/-- Python `str.title()` on a string. -/
def pyTitle (s : String) : String := ⟨pyTitleAux false s.data⟩

/-- Whether `pat` is a literal prefix of `s` (character lists). -/
def isPrefixOfL : List Char → List Char → Bool
  | [], _ => true
  | _ :: _, [] => false
  | p :: ps, c :: cs => p = c && isPrefixOfL ps cs

/-- Python substring test `pat in s` on character lists. -/
def containsL (pat : List Char) : List Char → Bool
  | [] => isPrefixOfL pat []
  | c :: cs => isPrefixOfL pat (c :: cs) || containsL pat cs

/-- Python substring test `pat in s` on strings. -/
def containsSub (pat s : String) : Bool := containsL pat.data s.data

/-- Strip a literal pattern (given lower-cased) off the front of the input,
case-insensitively; returns the matched original characters and the rest.
This models a case-insensitive literal piece of a Python regex. -/
def stripCI : List Char → List Char → Option (List Char × List Char)
  | [], s => some ([], s)
  | _ :: _, [] => none
  | p :: ps, c :: cs =>
    if lc c = p then (stripCI ps cs).map (fun mr => (c :: mr.1, mr.2)) else none

/-- Greedy span of a character class: `(takeWhile, dropWhile)`. -/
def spanP (p : Char → Bool) (s : List Char) : List Char × List Char :=
  (s.takeWhile p, s.dropWhile p)

/-! ### The episode-label regex `EP_LABEL_RE`

`(?:season\s*\d+\s*)?(?:episodes?|ep|e)\s*\d+(?:\s*[-–—]\s*\d+)?` with
`re.I`, `search` semantics.  Adjacent pieces have disjoint character
classes, so the only backtracking Python performs is across the literal
alternatives, which the matcher tries in the same order. -/

/-- Attempt of the optional range suffix `(?:\s*[-–—]\s*\d+)?` at the front
of `s`; returns the matched characters. -/
def epRange (s : List Char) : Option (List Char) :=
  let (w1, r1) := spanP isWS s
  match r1 with
  | c :: r2 =>
    if isDash c then
      let (w2, r3) := spanP isWS r2
      let (d2, _) := spanP isDigitC r3
      if d2.isEmpty then none else some (w1 ++ c :: (w2 ++ d2))
    else none
  | [] => none

/-- After a matched token `m`, match `\s*\d+` and the optional range. -/
def epAfterTok (m r : List Char) : Option (List Char) :=
  let (w, r1) := spanP isWS r
  let (d, r2) := spanP isDigitC r1
  if d.isEmpty then none
  else some (m ++ w ++ d ++ ((epRange r2).getD []))

/-- The core `(?:episodes?|ep|e)\s*\d+(?:\s*[-–—]\s*\d+)?` anchored at the
front of `s`, trying the alternatives in Python order. -/
def epCore (s : List Char) : Option (List Char) :=
  match stripCI "episodes".data s with
  | some (m, r) =>
    match epAfterTok m r with
    | some g => some g
    | none => epCoreRest s
  | none => epCoreRest s
where
  /-- The remaining alternatives `episode`, `ep`, `e`. -/
  epCoreRest (s : List Char) : Option (List Char) :=
    match stripCI "episode".data s with
    | some (m, r) =>
      match epAfterTok m r with
      | some g => some g
      | none => epCoreRest2 s
    | none => epCoreRest2 s
  /-- The remaining alternatives `ep`, `e`. -/
  epCoreRest2 (s : List Char) : Option (List Char) :=
    match stripCI "ep".data s with
    | some (m, r) =>
      match epAfterTok m r with
      | some g => some g
      | none => epCoreRest3 s
    | none => epCoreRest3 s
  /-- The last alternative `e`. -/
  epCoreRest3 (s : List Char) : Option (List Char) :=
    match stripCI "e".data s with
    | some (m, r) => epAfterTok m r
    | none => none

/-- The optional season prefix `(?:season\s*\d+\s*)?` followed by the core,
anchored at the front of `s`. -/
def epSeason (s : List Char) : Option (List Char) :=
  match stripCI "season".data s with
  | some (m, r) =>
    let (w1, r1) := spanP isWS r
    let (d1, r2) := spanP isDigitC r1
    if d1.isEmpty then none
    else
      let (w2, r3) := spanP isWS r2
      (epCore r3).map (fun g => m ++ w1 ++ d1 ++ w2 ++ g)
  | none => none

/-- Model of `EP_LABEL_RE` anchored at the front of `s` (group 0 characters). -/
def epMatchAt (s : List Char) : Option (List Char) :=
  match epSeason s with
  | some g => some g
  | none => epCore s

/-- Model of `EP_LABEL_RE.search`: leftmost match wins. -/
def epSearchAux : List Char → Option (List Char)
  | [] => none
  | c :: cs =>
    match epMatchAt (c :: cs) with
    | some g => some g
    | none => epSearchAux cs

/-- Model of `EP_LABEL_RE.search(s)` returning `group(0)`. -/
def epSearch (s : String) : Option String := (epSearchAux s.data).map List.asString

end Bp

namespace Bp

/-! ### Document-tree model

BeautifulSoup's parse tree is external to the program; each node is
modelled by the capabilities `_guess_label_for_anchor` consumes:
whether it is a tag (tags are truthy; bare strings are truthy iff
non-empty), whether it exposes `get_text` (the source probes this with
`hasattr`), the result of `get_text(" ", strip=True)`, and the
`parent` / `previous_sibling` back-references as indices into a node
table. -/

structure BNode where
  isTag : Bool
  hasGetText : Bool
  text : String
  parent : Option Nat
  prevSib : Option Nat
  deriving Repr, DecidableEq

structure BDoc where
  nodes : List BNode
  deriving Repr, DecidableEq

/-- Node lookup in the table. -/
def nodeAt (d : BDoc) (i : Nat) : Option BNode := d.nodes.get? i

/-- Python truthiness of a node: a `Tag` is truthy, a `NavigableString`
is truthy iff non-empty. -/
def truthyB (n : BNode) : Bool := n.isTag || !n.text.isEmpty

/-- The `get_text(" ", strip=True)` value of a node (anchors are tags, so
the source calls it unconditionally on the anchor). -/
def textAt (d : BDoc) (i : Nat) : String :=
  match nodeAt d i with
  | some n => n.text
  | none => ""

/-- Run `EP_LABEL_RE` the way `_guess_label_for_anchor` does on one text:
collapse, search, and on a hit collapse and title-case the match. -/
def findLabelStr (t : String) : Option String :=
  (epSearch (collapseSpaces t)).map (fun g => pyTitle (collapseSpaces g))

/-- The previous-sibling reference of node `i`. -/
def prevSibAt (d : BDoc) (i : Nat) : Option Nat := (nodeAt d i).bind (·.prevSib)

/-- The parent reference of node `i`. -/
def parentAt (d : BDoc) (i : Nat) : Option Nat := (nodeAt d i).bind (·.parent)

/-- The `previous_sibling` loop of `_guess_label_for_anchor` (8 rounds):
step to the previous sibling, break on a falsy node, and try the matcher
on every node exposing `get_text`. -/
def prevScan (d : BDoc) (cur : Nat) : Nat → Option String
  | 0 => none
  | fuel + 1 =>
    match prevSibAt d cur with
    | none => none
    | some j =>
      match nodeAt d j with
      | none => none
      | some n =>
        if truthyB n = false then none
        else
          match (if n.hasGetText then findLabelStr n.text else none) with
          | some lab => some lab
          | none => prevScan d j fuel

/-- The `while ps and hops < 6` loop over an ancestor's previous siblings. -/
def ancSibScan (d : BDoc) : Option Nat → Nat → Option String
  | _, 0 => none
  | none, _ => none
  | some j, fuel + 1 =>
    match nodeAt d j with
    | none => none
    | some n =>
      if truthyB n = false then none
      else
        match (if n.hasGetText then findLabelStr n.text else none) with
        | some lab => some lab
        | none => ancSibScan d n.prevSib fuel

/-- The ancestor loop of `_guess_label_for_anchor` (4 levels): at each
level try the ancestor's text (when it exposes `get_text`), then up to 6
of its previous siblings. -/
def ancScan (d : BDoc) (cur : Nat) : Nat → Option String
  | 0 => none
  | fuel + 1 =>
    match parentAt d cur with
    | none => none
    | some p =>
      match nodeAt d p with
      | none => none
      | some n =>
        if truthyB n = false then none
        else
          match (if n.hasGetText then findLabelStr n.text else none) with
          | some lab => some lab
          | none =>
            match ancSibScan d n.prevSib 6 with
            | some lab => some lab
            | none => ancScan d p fuel

/-- Model of `_guess_label_for_anchor`: anchor text, then 8 previous siblings, then
4 ancestor levels (text plus 6 previous siblings each), else the sentinel. -/
def guessLabelForAnchor (d : BDoc) (a : Nat) : String :=
  match findLabelStr (textAt d a) with
  | some lab => lab
  | none =>
    match prevScan d a 8 with
    | some lab => lab
    | none =>
      match ancScan d a 4 with
      | some lab => lab
      | none => "Episode ?"

/-! ### The specification's search order, stated independently -/

/-- Up to `fuel` previous siblings of `cur`, nearest first. -/
def prevChain (d : BDoc) (cur : Nat) : Nat → List Nat
  | 0 => []
  | fuel + 1 =>
    match prevSibAt d cur with
    | none => []
    | some j => j :: prevChain d j fuel

/-- Up to `fuel` ancestors of `cur`, nearest first. -/
def ancChain (d : BDoc) (cur : Nat) : Nat → List Nat
  | 0 => []
  | fuel + 1 =>
    match parentAt d cur with
    | none => []
    | some p => p :: ancChain d p fuel

/-- The collapsed text of node `j` when it exposes text, per the spec's
"only those exposing text". -/
def exposedText (d : BDoc) (j : Nat) : Option String :=
  (nodeAt d j).bind (fun n => if n.hasGetText then some n.text else none)

/-- The texts the spec says the associator examines, in its exact order:
the anchor's own text, up to 8 preceding siblings (those exposing text),
then for each of up to 4 ancestors its full text followed by up to 6 of
its preceding siblings (those exposing text). -/
def specCandidates (d : BDoc) (a : Nat) : List String :=
  textAt d a :: ((prevChain d a 8).filterMap (exposedText d))
    ++ (ancChain d a 4).flatMap
        (fun p => textAt d p :: (prevChain d p 6).filterMap (exposedText d))

/-- Well-formedness of a parsed document: every `previous_sibling` or
`parent` reference points at an existing truthy node (parsers emit no
empty strings), and every parent is a tag exposing `get_text`. -/
def wfB (d : BDoc) : Bool :=
  d.nodes.all (fun n =>
    (match n.prevSib with
     | none => true
     | some j => match nodeAt d j with
       | some m => truthyB m
       | none => false) &&
    (match n.parent with
     | none => true
     | some j => match nodeAt d j with
       | some m => truthyB m && m.hasGetText
       | none => false))

end Bp

namespace Bp

/-- First label produced by running the matcher over a list of texts. -/
def firstHit (ts : List String) : Option String := (ts.filterMap findLabelStr).head?

theorem firstHit_nil : firstHit [] = none := rfl

theorem firstHit_cons (t : String) (ts : List String) :
    firstHit (t :: ts) =
      match findLabelStr t with
      | some lab => some lab
      | none => firstHit ts := by
  unfold firstHit
  rw [List.filterMap_cons]
  cases h : findLabelStr t <;> simp

theorem firstHit_append (l1 l2 : List String) :
    firstHit (l1 ++ l2) =
      match firstHit l1 with
      | some lab => some lab
      | none => firstHit l2 := by
  induction l1 with
  | nil => simp [firstHit_nil]
  | cons t l1 ih =>
    rw [List.cons_append, firstHit_cons, firstHit_cons]
    cases h : findLabelStr t
    · simpa using ih
    · rfl

theorem nodeAt_mem {d : BDoc} {i : Nat} {n : BNode} (h : nodeAt d i = some n) :
    n ∈ d.nodes := List.get?_mem h

theorem wf_prevSib {d : BDoc} (hwf : wfB d = true) {i j : Nat} {n : BNode}
    (hn : nodeAt d i = some n) (hp : n.prevSib = some j) :
    ∃ m, nodeAt d j = some m ∧ truthyB m = true := by
  have hall := List.all_eq_true.mp hwf n (nodeAt_mem hn)
  rw [Bool.and_eq_true] at hall
  have h1 := hall.1
  rw [hp] at h1
  have h1' : (match nodeAt d j with
      | some m => truthyB m
      | none => false) = true := h1
  cases hm : nodeAt d j with
  | none => rw [hm] at h1'; simp at h1'
  | some m => rw [hm] at h1'; exact ⟨m, rfl, h1'⟩

theorem wf_parent {d : BDoc} (hwf : wfB d = true) {i j : Nat} {n : BNode}
    (hn : nodeAt d i = some n) (hp : n.parent = some j) :
    ∃ m, nodeAt d j = some m ∧ truthyB m = true ∧ m.hasGetText = true := by
  have hall := List.all_eq_true.mp hwf n (nodeAt_mem hn)
  rw [Bool.and_eq_true] at hall
  have h2 := hall.2
  rw [hp] at h2
  have h2' : (match nodeAt d j with
      | some m => truthyB m && m.hasGetText
      | none => false) = true := h2
  cases hm : nodeAt d j with
  | none => rw [hm] at h2'; simp at h2'
  | some m =>
    rw [hm] at h2'
    rw [Bool.and_eq_true] at h2'
    exact ⟨m, rfl, h2'.1, h2'.2⟩

theorem prevSibAt_inv {d : BDoc} {i j : Nat} (h : prevSibAt d i = some j) :
    ∃ n, nodeAt d i = some n ∧ n.prevSib = some j := by
  unfold prevSibAt at h
  cases hn : nodeAt d i with
  | none => rw [hn] at h; simp at h
  | some n => rw [hn] at h; exact ⟨n, rfl, h⟩

theorem parentAt_inv {d : BDoc} {i j : Nat} (h : parentAt d i = some j) :
    ∃ n, nodeAt d i = some n ∧ n.parent = some j := by
  unfold parentAt at h
  cases hn : nodeAt d i with
  | none => rw [hn] at h; simp at h
  | some n => rw [hn] at h; exact ⟨n, rfl, h⟩

theorem prevScan_eq {d : BDoc} (hwf : wfB d = true) :
    ∀ (fuel cur : Nat),
      prevScan d cur fuel = firstHit ((prevChain d cur fuel).filterMap (exposedText d)) := by
  intro fuel
  induction fuel with
  | zero => intro cur; rfl
  | succ f ih =>
    intro cur
    cases hp : prevSibAt d cur with
    | none => simp [prevScan, prevChain, hp, firstHit_nil]
    | some j =>
      obtain ⟨nc, hnc, hncp⟩ := prevSibAt_inv hp
      obtain ⟨m, hm, htr⟩ := wf_prevSib hwf hnc hncp
      cases hg : m.hasGetText with
      | false =>
        simp [prevScan, prevChain, hp, hm, htr, hg, exposedText, ih j]
      | true =>
        cases hf : findLabelStr m.text with
        | some lab =>
          simp [prevScan, prevChain, hp, hm, htr, hg, hf, exposedText, firstHit_cons]
        | none =>
          simp [prevScan, prevChain, hp, hm, htr, hg, hf, exposedText, firstHit_cons, ih j]

theorem ancSibScan_eq {d : BDoc} (hwf : wfB d = true) :
    ∀ (fuel cur : Nat),
      ancSibScan d (prevSibAt d cur) fuel
        = firstHit ((prevChain d cur fuel).filterMap (exposedText d)) := by
  intro fuel
  induction fuel with
  | zero =>
    intro cur
    cases hp : prevSibAt d cur <;> rfl
  | succ f ih =>
    intro cur
    cases hp : prevSibAt d cur with
    | none => simp [ancSibScan, prevChain, hp, firstHit_nil]
    | some j =>
      obtain ⟨nc, hnc, hncp⟩ := prevSibAt_inv hp
      obtain ⟨m, hm, htr⟩ := wf_prevSib hwf hnc hncp
      have hstep : prevSibAt d j = m.prevSib := by simp [prevSibAt, hm]
      cases hg : m.hasGetText with
      | false =>
        have := ih j
        rw [hstep] at this
        simp [ancSibScan, prevChain, hp, hm, htr, hg, exposedText, this]
      | true =>
        cases hf : findLabelStr m.text with
        | some lab =>
          simp [ancSibScan, prevChain, hp, hm, htr, hg, hf, exposedText, firstHit_cons]
        | none =>
          have := ih j
          rw [hstep] at this
          simp [ancSibScan, prevChain, hp, hm, htr, hg, hf, exposedText, firstHit_cons, this]

theorem ancScan_eq {d : BDoc} (hwf : wfB d = true) :
    ∀ (fuel cur : Nat),
      ancScan d cur fuel
        = firstHit ((ancChain d cur fuel).flatMap
            (fun p => textAt d p :: (prevChain d p 6).filterMap (exposedText d))) := by
  intro fuel
  induction fuel with
  | zero => intro cur; rfl
  | succ f ih =>
    intro cur
    cases hp : parentAt d cur with
    | none => simp [ancScan, ancChain, hp, firstHit_nil]
    | some p =>
      obtain ⟨nc, hnc, hncp⟩ := parentAt_inv hp
      obtain ⟨m, hm, htr, hgt⟩ := wf_parent hwf hnc hncp
      have htxt : textAt d p = m.text := by simp [textAt, hm]
      have hstep : prevSibAt d p = m.prevSib := by simp [prevSibAt, hm]
      have hsib := ancSibScan_eq hwf 6 p
      rw [hstep] at hsib
      cases hf : findLabelStr m.text with
      | some lab =>
        simp [ancScan, ancChain, hp, hm, htr, hgt, hf, htxt, firstHit_append, firstHit_cons]
      | none =>
        cases hsr : firstHit ((prevChain d p 6).filterMap (exposedText d)) with
        | some lab =>
          rw [hsr] at hsib
          simp [ancScan, ancChain, hp, hm, htr, hgt, hf, htxt, hsib, hsr,
            firstHit_append, firstHit_cons]
        | none =>
          rw [hsr] at hsib
          simp [ancScan, ancChain, hp, hm, htr, hgt, hf, htxt, hsib, hsr,
            firstHit_append, firstHit_cons, ih p]

/-- The associator equals the first Label-Matcher hit over the
specification's candidate list, with `"Episode ?"` as the fallback. -/
theorem guessLabel_eq_spec {d : BDoc} (hwf : wfB d = true) (a : Nat) :
    guessLabelForAnchor d a
      = (firstHit (specCandidates d a)).getD "Episode ?" := by
  unfold guessLabelForAnchor specCandidates
  rw [firstHit_append, firstHit_cons]
  cases h1 : findLabelStr (textAt d a) with
  | some lab => rfl
  | none =>
    rw [← prevScan_eq hwf 8 a]
    cases h2 : prevScan d a 8 with
    | some lab => rfl
    | none =>
      rw [← ancScan_eq hwf 4 a]
      cases h3 : ancScan d a 4 with
      | some lab => rfl
      | none => rfl

end Bp

namespace Bp

/-! ### Link Classifier: `_clean_tg_url` and `_clean_drive_url`

Both regexes are `^\s*(prefix[^\s"\x27<>]+|...)` with `re.I` and
`re.match`; the alternatives share no case-insensitive prefix, so they
match deterministically in Python's order. -/

/-- The character class `[^\s"\x27<>]+` of the cleaners: everything except
whitespace, double quote, single quote and angle brackets. -/
def goodUrlChar (c : Char) : Bool :=
  !(isWS c || c = Char.ofNat 34 || c = Char.ofNat 39 || c = '<' || c = '>')

/-- One alternative `prefix[^\s"\x27<>]+` anchored at the front of `s`:
the prefix case-insensitively, then a maximal non-empty run of good
characters, keeping the original characters. -/
def cleanAlt (pat : String) (s : List Char) : Option String :=
  match stripCI pat.data s with
  | some (m, r) =>
    let run := r.takeWhile goodUrlChar
    if run.isEmpty then none else some ⟨m ++ run⟩
  | none => none

/-- Model of `_clean_tg_url`. -/
def cleanTgUrl (u : String) : Option String :=
  match cleanAlt "https://t.me/" (u.data.dropWhile isWS) with
  | some l => some l
  | none => cleanAlt "tg://" (u.data.dropWhile isWS)

/-- Model of `_clean_drive_url`. -/
def cleanDriveUrl (u : String) : Option String :=
  match cleanAlt "https://drive.google.com/" (u.data.dropWhile isWS) with
  | some l => some l
  | none =>
    match cleanAlt "https://docs.google.com/" (u.data.dropWhile isWS) with
    | some l => some l
    | none => cleanAlt "https://drive.usercontent.google.com/" (u.data.dropWhile isWS)

theorem stripCI_sound :
    ∀ (p s m r : List Char), stripCI p s = some (m, r) → s = m ++ r ∧ m.map lc = p := by
  intro p
  induction p with
  | nil =>
    intro s m r h
    unfold stripCI at h
    simp at h
    simp [h.1, h.2]
  | cons q qs ih =>
    intro s m r h
    cases s with
    | nil => simp [stripCI] at h
    | cons c cs =>
      unfold stripCI at h
      by_cases hc : lc c = q
      · rw [if_pos hc] at h
        cases hrec : stripCI qs cs with
        | none => rw [hrec] at h; simp at h
        | some mr =>
          rw [hrec] at h
          simp at h
          obtain ⟨hm, hr⟩ := h
          obtain ⟨hs, hmap⟩ := ih cs mr.1 mr.2 (by rw [hrec])
          subst hm hr
          constructor
          · simp [hs]
          · simp [hmap, hc]
      · rw [if_neg hc] at h
        simp at h

theorem stripCI_complete :
    ∀ (m p r : List Char), m.map lc = p → stripCI p (m ++ r) = some (m, r) := by
  intro m
  induction m with
  | nil =>
    intro p r h
    simp at h
    subst h
    rfl
  | cons c cs ih =>
    intro p r h
    simp at h
    cases p with
    | nil => simp at h
    | cons q qs =>
      simp at h
      obtain ⟨h1, h2⟩ := h
      show stripCI (q :: qs) (c :: (cs ++ r)) = _
      unfold stripCI
      rw [if_pos h1, ih qs r h2]
      rfl

theorem takeWhile_all {p : Char → Bool} :
    ∀ {l : List Char}, (∀ c ∈ l, p c = true) → l.takeWhile p = l := by
  intro l
  induction l with
  | nil => intro _; rfl
  | cons c cs ih =>
    intro h
    rw [List.takeWhile_cons, h c (by simp)]
    simp [ih (fun x hx => h x (by simp [hx]))]

theorem mem_takeWhile {p : Char → Bool} :
    ∀ {l : List Char} {c : Char}, c ∈ l.takeWhile p → p c = true := by
  intro l
  induction l with
  | nil => intro c h; simp [List.takeWhile] at h
  | cons a as ih =>
    intro c h
    rw [List.takeWhile_cons] at h
    by_cases ha : p a = true
    · rw [if_pos ha] at h
      rcases List.mem_cons.mp h with h1 | h2
      · rwa [h1]
      · exact ih h2
    · rw [if_neg ha] at h
      simp at h

theorem isWS_lc_fixed {c : Char} (h : isWS c = true) : lc c = c := by
  unfold isWS at h
  simp only [Bool.or_eq_true, decide_eq_true_eq] at h
  rcases h with ((((h | h) | h) | h) | h) | h <;> subst h <;> decide

/-- The helper `cleanAlt` succeeds exactly on a case-insensitive copy of the
pattern followed by a non-empty maximal run of good characters. -/
theorem cleanAlt_sound {pat : String} {s : List Char} {l : String}
    (h : cleanAlt pat s = some l) :
    ∃ m run, l.data = m ++ run ∧ m.map lc = pat.data ∧ run ≠ [] ∧
      ∀ c ∈ run, goodUrlChar c = true := by
  unfold cleanAlt at h
  cases hs : stripCI pat.data s with
  | none => rw [hs] at h; simp at h
  | some mr =>
    obtain ⟨m0, r0⟩ := mr
    rw [hs] at h
    dsimp only at h
    by_cases he : (r0.takeWhile goodUrlChar).isEmpty = true
    · rw [if_pos he] at h; simp at h
    · rw [if_neg he] at h
      simp at h
      refine ⟨m0, r0.takeWhile goodUrlChar, ?_, ?_, ?_, ?_⟩
      · rw [← h]
      · exact (stripCI_sound pat.data s m0 r0 hs).2
      · intro hnil; rw [hnil] at he; simp at he
      · intro c hc; exact mem_takeWhile hc

theorem cleanAlt_self {pat : String} {m run : List Char}
    (hm : m.map lc = pat.data) (hne : run ≠ [])
    (hgood : ∀ c ∈ run, goodUrlChar c = true) :
    cleanAlt pat (m ++ run) = some ⟨m ++ run⟩ := by
  unfold cleanAlt
  rw [stripCI_complete m pat.data run hm]
  dsimp only
  rw [takeWhile_all hgood]
  rw [if_neg (by simpa using hne)]

theorem stripCI_none_of_mismatch {p q m r : List Char} {i : Nat}
    (hm : m.map lc = q) (hip : i < p.length) (hiq : i < q.length)
    (hne : p.get? i ≠ q.get? i) :
    stripCI p (m ++ r) = none := by
  cases hs : stripCI p (m ++ r) with
  | none => rfl
  | some mr =>
    exfalso
    obtain ⟨heq, hmap⟩ := stripCI_sound p (m ++ r) mr.1 mr.2 (by rw [hs])
    have hlen1 : mr.1.length = p.length := by
      rw [← hmap]; simp
    have hlen2 : m.length = q.length := by
      rw [← hm]; simp
    have h1 : (m ++ r).get? i = m.get? i := List.get?_append (by omega)
    have h2 : (mr.1 ++ mr.2).get? i = mr.1.get? i := List.get?_append (by omega)
    have hgi : mr.1.get? i = m.get? i := by rw [← h1, ← h2, heq]
    apply hne
    rw [← hmap, ← hm, List.get?_map, List.get?_map, hgi]

end Bp

namespace Bp

theorem dropWS_prefix_fixed {m run p : List Char} (c0 : Char)
    (hm : m.map lc = p) (hp0 : p.get? 0 = some c0) (hws : isWS c0 = false) :
    (m ++ run).dropWhile isWS = m ++ run := by
  cases m with
  | nil =>
    rw [← hm] at hp0
    simp at hp0
  | cons c cs =>
    have hc0 : lc c = c0 := by
      rw [← hm] at hp0
      simpa using hp0
    have hcws : isWS c = false := by
      cases hc : isWS c with
      | false => rfl
      | true =>
        have h2 : lc c = c := isWS_lc_fixed hc
        rw [hc0] at h2
        rw [h2] at hws
        rw [hc] at hws
        exact hws
    rw [List.cons_append, List.dropWhile_cons, hcws]
    simp

theorem cleanAlt_none_of_mismatch {pat : String} {q m run : List Char} (i : Nat)
    (hm : m.map lc = q) (hip : i < pat.data.length) (hiq : i < q.length)
    (hne : pat.data.get? i ≠ q.get? i) :
    cleanAlt pat (m ++ run) = none := by
  unfold cleanAlt
  rw [stripCI_none_of_mismatch hm hip hiq hne]

theorem cleanTg_stable {u l : String} (h : cleanTgUrl u = some l) :
    cleanTgUrl l = some l := by
  unfold cleanTgUrl at h
  cases h1 : cleanAlt "https://t.me/" (u.data.dropWhile isWS) with
  | some l1 =>
    rw [h1] at h
    dsimp only at h
    have hl : l1 = l := by simpa using h
    subst hl
    obtain ⟨m, run, hml, hm, hne, hgood⟩ := cleanAlt_sound h1
    unfold cleanTgUrl
    rw [hml, dropWS_prefix_fixed 'h' hm (by decide) (by decide)]
    rw [cleanAlt_self hm hne hgood]
    dsimp only
    rw [← hml]
  | none =>
    rw [h1] at h
    dsimp only at h
    obtain ⟨m, run, hml, hm, hne, hgood⟩ := cleanAlt_sound h
    unfold cleanTgUrl
    rw [hml, dropWS_prefix_fixed 't' hm (by decide) (by decide)]
    rw [cleanAlt_none_of_mismatch 0 hm (by decide) (by decide) (by decide)]
    rw [cleanAlt_self hm hne hgood]
    dsimp only
    rw [← hml]

theorem cleanDrive_stable {u l : String} (h : cleanDriveUrl u = some l) :
    cleanDriveUrl l = some l := by
  unfold cleanDriveUrl at h
  cases h1 : cleanAlt "https://drive.google.com/" (u.data.dropWhile isWS) with
  | some l1 =>
    rw [h1] at h
    dsimp only at h
    have hl : l1 = l := by simpa using h
    subst hl
    obtain ⟨m, run, hml, hm, hne, hgood⟩ := cleanAlt_sound h1
    unfold cleanDriveUrl
    rw [hml, dropWS_prefix_fixed 'h' hm (by decide) (by decide)]
    rw [cleanAlt_self hm hne hgood]
    dsimp only
    rw [← hml]
  | none =>
    rw [h1] at h
    dsimp only at h
    cases h2 : cleanAlt "https://docs.google.com/" (u.data.dropWhile isWS) with
    | some l2 =>
      rw [h2] at h
      dsimp only at h
      have hl : l2 = l := by simpa using h
      subst hl
      obtain ⟨m, run, hml, hm, hne, hgood⟩ := cleanAlt_sound h2
      unfold cleanDriveUrl
      rw [hml, dropWS_prefix_fixed 'h' hm (by decide) (by decide)]
      rw [cleanAlt_none_of_mismatch 9 hm (by decide) (by decide) (by decide)]
      rw [cleanAlt_self hm hne hgood]
      dsimp only
      rw [← hml]
    | none =>
      rw [h2] at h
      dsimp only at h
      obtain ⟨m, run, hml, hm, hne, hgood⟩ := cleanAlt_sound h
      unfold cleanDriveUrl
      rw [hml, dropWS_prefix_fixed 'h' hm (by decide) (by decide)]
      rw [cleanAlt_none_of_mismatch 14 hm (by decide) (by decide) (by decide)]
      rw [cleanAlt_none_of_mismatch 9 hm (by decide) (by decide) (by decide)]
      rw [cleanAlt_self hm hne hgood]
      rw [← hml]

end Bp

namespace Bp

/-! ### Page Extractor: `extract_title_and_labeled_links`

The HTML fetch and parse are external; the extractor's own logic runs on
the parsed document plus the anchors (node index and raw `href`) in
document order, and builds the label-grouped, globally de-duplicated
link lists.  `Grouped` is an association list because Python dicts keep
insertion order. -/

/-- One label's record: the `"tg"` list and the `"drive"` list. -/
abbrev Slot := List String × List String

/-- The grouped mapping, in label insertion order. -/
abbrev Grouped := List (String × Slot)

/-- Lookup `grouped[label]["tg"]`, empty when the label is absent. -/
def tgOf (g : Grouped) (L : String) : List String := ((g.lookup L).getD ([], [])).1

/-- Lookup `grouped[label]["drive"]`, empty when the label is absent. -/
def drOf (g : Grouped) (L : String) : List String := ((g.lookup L).getD ([], [])).2

/-- Model of `grouped.setdefault(label, {"tg": [], "drive": []})`. -/
def addNewLabel (g : Grouped) (L : String) : Grouped :=
  match g.lookup L with
  | some _ => g
  | none => g ++ [(L, ([], []))]

/-- Append to the `"tg"` list of the entry for `L`. -/
def appendTg : Grouped → String → String → Grouped
  | [], _, _ => []
  | (K, s) :: rest, L, t =>
    if K = L then (K, (s.1 ++ [t], s.2)) :: rest
    else (K, s) :: appendTg rest L t

/-- Append to the `"drive"` list of the entry for `L`. -/
def appendDr : Grouped → String → String → Grouped
  | [], _, _ => []
  | (K, s) :: rest, L, t =>
    if K = L then (K, (s.1, s.2 ++ [t])) :: rest
    else (K, s) :: appendDr rest L t

/-- The `if tg and tg not in seen_tg` body for the `"tg"` category. -/
def processTg (L : String) : Option String → Grouped → List String → Grouped × List String
  | none, g, seen => (g, seen)
  | some t, g, seen => if t ∈ seen then (g, seen) else (appendTg g L t, seen ++ [t])

/-- The `if gd and gd not in seen_drive` body for the `"drive"` category. -/
def processDr (L : String) : Option String → Grouped → List String → Grouped × List String
  | none, g, seen => (g, seen)
  | some t, g, seen => if t ∈ seen then (g, seen) else (appendDr g L t, seen ++ [t])

/-- The classification of one anchor's stripped `href` as a chat link. -/
def anchorTg (a : Nat × String) : Option String := cleanTgUrl (pyStrip a.2)

/-- The classification of one anchor's stripped `href` as a storage link. -/
def anchorDr (a : Nat × String) : Option String := cleanDriveUrl (pyStrip a.2)

/-- The label the associator produces for one anchor. -/
def anchorLabel (doc : BDoc) (a : Nat × String) : String := guessLabelForAnchor doc a.1

/-- The loop body of `extract_title_and_labeled_links` for one anchor:
skip unclassified anchors, otherwise create the label's entry and append
each classified link that has not been seen in its category. -/
def exStep (doc : BDoc) (st : Grouped × List String × List String) (a : Nat × String) :
    Grouped × List String × List String :=
  if (anchorTg a).isNone && (anchorDr a).isNone then st
  else
    ((processDr (anchorLabel doc a) (anchorDr a)
        (processTg (anchorLabel doc a) (anchorTg a)
          (addNewLabel st.1 (anchorLabel doc a)) st.2.1).1 st.2.2).1,
     (processTg (anchorLabel doc a) (anchorTg a)
        (addNewLabel st.1 (anchorLabel doc a)) st.2.1).2,
     (processDr (anchorLabel doc a) (anchorDr a)
        (processTg (anchorLabel doc a) (anchorTg a)
          (addNewLabel st.1 (anchorLabel doc a)) st.2.1).1 st.2.2).2)

/-- The grouped result of `extract_title_and_labeled_links` over the
anchors of a parsed page, in document order. -/
def extractLabeledLinks (doc : BDoc) (anchors : List (Nat × String)) : Grouped :=
  (anchors.foldl (exStep doc) ([], [], [])).1

/-- Total occurrences of a link in the `"tg"` lists across all labels. -/
def countTg (g : Grouped) (l : String) : Nat := (g.map (fun e => e.2.1.count l)).sum

/-- Total occurrences of a link in the `"drive"` lists across all labels. -/
def countDr (g : Grouped) (l : String) : Nat := (g.map (fun e => e.2.2.count l)).sum

/-! ### The de-duplication invariant, stated independently -/

/-- Keep the first occurrence of every element (seen accumulator form). -/
def dedupFirstAux (acc : List String) : List String → List String
  | [] => acc
  | x :: xs => if x ∈ acc then dedupFirstAux acc xs else dedupFirstAux (acc ++ [x]) xs

/-- The distinct chat links of a page in first-seen document order. -/
def specTgSeq (anchors : List (Nat × String)) : List String :=
  dedupFirstAux [] (anchors.filterMap anchorTg)

/-- The distinct storage links of a page in first-seen document order. -/
def specDrSeq (anchors : List (Nat × String)) : List String :=
  dedupFirstAux [] (anchors.filterMap anchorDr)

/-- The label of the first anchor (in document order) classified as the
given chat link. -/
def firstTgLabel (doc : BDoc) (anchors : List (Nat × String)) (l : String) : Option String :=
  (anchors.find? (fun a => anchorTg a == some l)).map (anchorLabel doc)

/-- The label of the first anchor (in document order) classified as the
given storage link. -/
def firstDrLabel (doc : BDoc) (anchors : List (Nat × String)) (l : String) : Option String :=
  (anchors.find? (fun a => anchorDr a == some l)).map (anchorLabel doc)

end Bp

namespace Bp

theorem mem_dedupFirstAux :
    ∀ (xs acc : List String) (x : String), x ∈ dedupFirstAux acc xs ↔ x ∈ acc ∨ x ∈ xs := by
  intro xs
  induction xs with
  | nil => intro acc x; simp [dedupFirstAux]
  | cons y ys ih =>
    intro acc x
    unfold dedupFirstAux
    by_cases hy : y ∈ acc
    · rw [if_pos hy, ih]
      constructor
      · rintro (h | h)
        · exact Or.inl h
        · exact Or.inr (List.mem_cons_of_mem y h)
      · rintro (h | h)
        · exact Or.inl h
        · rcases List.mem_cons.mp h with h' | h'
          · exact Or.inl (h' ▸ hy)
          · exact Or.inr h'
    · rw [if_neg hy, ih]
      simp [List.mem_append, List.mem_cons]
      tauto

theorem dedupFirstAux_snoc :
    ∀ (xs acc : List String) (x : String),
      dedupFirstAux acc (xs ++ [x]) =
        if x ∈ dedupFirstAux acc xs then dedupFirstAux acc xs
        else dedupFirstAux acc xs ++ [x] := by
  intro xs
  induction xs with
  | nil => intro acc x; simp [dedupFirstAux]
  | cons y ys ih =>
    intro acc x
    show dedupFirstAux acc (y :: (ys ++ [x])) = _
    unfold dedupFirstAux
    by_cases hy : y ∈ acc
    · rw [if_pos hy, if_pos hy, ih]
    · rw [if_neg hy, if_neg hy, ih]

theorem nodup_dedupFirstAux :
    ∀ (xs acc : List String), acc.Nodup → (dedupFirstAux acc xs).Nodup := by
  intro xs
  induction xs with
  | nil => intro acc h; simpa [dedupFirstAux] using h
  | cons y ys ih =>
    intro acc h
    unfold dedupFirstAux
    by_cases hy : y ∈ acc
    · rw [if_pos hy]; exact ih acc h
    · rw [if_neg hy]
      exact ih (acc ++ [y]) (by simp [List.nodup_append, h, hy])

theorem mem_specTgSeq {hs : List (Nat × String)} {l : String} :
    l ∈ specTgSeq hs ↔ ∃ a ∈ hs, anchorTg a = some l := by
  simp [specTgSeq, mem_dedupFirstAux, List.mem_filterMap]

theorem mem_specDrSeq {hs : List (Nat × String)} {l : String} :
    l ∈ specDrSeq hs ↔ ∃ a ∈ hs, anchorDr a = some l := by
  simp [specDrSeq, mem_dedupFirstAux, List.mem_filterMap]

theorem nodup_specTgSeq (hs : List (Nat × String)) : (specTgSeq hs).Nodup :=
  nodup_dedupFirstAux _ _ List.nodup_nil

theorem nodup_specDrSeq (hs : List (Nat × String)) : (specDrSeq hs).Nodup :=
  nodup_dedupFirstAux _ _ List.nodup_nil

theorem specTgSeq_snoc (hs : List (Nat × String)) (a : Nat × String) :
    specTgSeq (hs ++ [a]) =
      match anchorTg a with
      | none => specTgSeq hs
      | some t => if t ∈ specTgSeq hs then specTgSeq hs else specTgSeq hs ++ [t] := by
  unfold specTgSeq
  rw [List.filterMap_append]
  cases h : anchorTg a with
  | none => simp [List.filterMap_cons, h]
  | some t => simp only [List.filterMap_cons, h, List.filterMap_nil, dedupFirstAux_snoc]

theorem specDrSeq_snoc (hs : List (Nat × String)) (a : Nat × String) :
    specDrSeq (hs ++ [a]) =
      match anchorDr a with
      | none => specDrSeq hs
      | some t => if t ∈ specDrSeq hs then specDrSeq hs else specDrSeq hs ++ [t] := by
  unfold specDrSeq
  rw [List.filterMap_append]
  cases h : anchorDr a with
  | none => simp [List.filterMap_cons, h]
  | some t => simp only [List.filterMap_cons, h, List.filterMap_nil, dedupFirstAux_snoc]

theorem firstTgLabel_snoc_mem {doc : BDoc} {hs : List (Nat × String)} {l : String}
    (a : Nat × String) (hmem : l ∈ specTgSeq hs) :
    firstTgLabel doc (hs ++ [a]) l = firstTgLabel doc hs l := by
  unfold firstTgLabel
  rw [List.find?_append]
  obtain ⟨a', ha', hta'⟩ := mem_specTgSeq.mp hmem
  have hsome : (hs.find? (fun x => anchorTg x == some l)).isSome :=
    List.find?_isSome.mpr ⟨a', ha', by simp [hta']⟩
  cases hf : hs.find? (fun x => anchorTg x == some l) with
  | none => rw [hf] at hsome; simp at hsome
  | some x => simp [Option.or]

theorem firstDrLabel_snoc_mem {doc : BDoc} {hs : List (Nat × String)} {l : String}
    (a : Nat × String) (hmem : l ∈ specDrSeq hs) :
    firstDrLabel doc (hs ++ [a]) l = firstDrLabel doc hs l := by
  unfold firstDrLabel
  rw [List.find?_append]
  obtain ⟨a', ha', hta'⟩ := mem_specDrSeq.mp hmem
  have hsome : (hs.find? (fun x => anchorDr x == some l)).isSome :=
    List.find?_isSome.mpr ⟨a', ha', by simp [hta']⟩
  cases hf : hs.find? (fun x => anchorDr x == some l) with
  | none => rw [hf] at hsome; simp at hsome
  | some x => simp [Option.or]

theorem firstTgLabel_snoc_new {doc : BDoc} {hs : List (Nat × String)} {l : String}
    {a : Nat × String} (hnot : l ∉ specTgSeq hs) (ha : anchorTg a = some l) :
    firstTgLabel doc (hs ++ [a]) l = some (anchorLabel doc a) := by
  unfold firstTgLabel
  rw [List.find?_append]
  have hnone : hs.find? (fun x => anchorTg x == some l) = none := by
    rw [List.find?_eq_none]
    intro x hx hpx
    exact hnot (mem_specTgSeq.mpr ⟨x, hx, by simpa using hpx⟩)
  rw [hnone]
  simp [List.find?, ha, Option.or]

theorem firstDrLabel_snoc_new {doc : BDoc} {hs : List (Nat × String)} {l : String}
    {a : Nat × String} (hnot : l ∉ specDrSeq hs) (ha : anchorDr a = some l) :
    firstDrLabel doc (hs ++ [a]) l = some (anchorLabel doc a) := by
  unfold firstDrLabel
  rw [List.find?_append]
  have hnone : hs.find? (fun x => anchorDr x == some l) = none := by
    rw [List.find?_eq_none]
    intro x hx hpx
    exact hnot (mem_specDrSeq.mpr ⟨x, hx, by simpa using hpx⟩)
  rw [hnone]
  simp [List.find?, ha, Option.or]

end Bp

namespace Bp

theorem lookup_append (g1 g2 : Grouped) (L : String) :
    (g1 ++ g2).lookup L =
      match g1.lookup L with
      | some v => some v
      | none => g2.lookup L := by
  induction g1 with
  | nil => simp [List.lookup]
  | cons e rest ih =>
    obtain ⟨K, s⟩ := e
    show ((K, s) :: (rest ++ g2)).lookup L = _
    by_cases h : L = K
    · simp [List.lookup, h]
    · have hb : (L == K) = false := beq_eq_false_iff_ne.mpr h
      simp only [List.lookup, hb]
      exact ih

theorem tgOf_cons (K : String) (s : Slot) (rest : Grouped) (L : String) :
    tgOf ((K, s) :: rest) L = if K = L then s.1 else tgOf rest L := by
  by_cases h : K = L
  · subst h; simp [tgOf, List.lookup]
  · have hb : (L == K) = false := beq_eq_false_iff_ne.mpr (fun e => h e.symm)
    simp [tgOf, List.lookup, hb, h]

theorem drOf_cons (K : String) (s : Slot) (rest : Grouped) (L : String) :
    drOf ((K, s) :: rest) L = if K = L then s.2 else drOf rest L := by
  by_cases h : K = L
  · subst h; simp [drOf, List.lookup]
  · have hb : (L == K) = false := beq_eq_false_iff_ne.mpr (fun e => h e.symm)
    simp [drOf, List.lookup, hb, h]

theorem countTg_cons (K : String) (s : Slot) (rest : Grouped) (l : String) :
    countTg ((K, s) :: rest) l = s.1.count l + countTg rest l := by
  simp [countTg]

theorem countDr_cons (K : String) (s : Slot) (rest : Grouped) (l : String) :
    countDr ((K, s) :: rest) l = s.2.count l + countDr rest l := by
  simp [countDr]

theorem countTg_append (g1 g2 : Grouped) (l : String) :
    countTg (g1 ++ g2) l = countTg g1 l + countTg g2 l := by
  simp [countTg]

theorem countDr_append (g1 g2 : Grouped) (l : String) :
    countDr (g1 ++ g2) l = countDr g1 l + countDr g2 l := by
  simp [countDr]

theorem tgOf_addNewLabel (g : Grouped) (L L' : String) :
    tgOf (addNewLabel g L) L' = tgOf g L' := by
  unfold addNewLabel
  cases h : g.lookup L with
  | some s => rfl
  | none =>
    unfold tgOf
    rw [lookup_append]
    cases h2 : g.lookup L' with
    | some s => rfl
    | none =>
      by_cases hL : L' = L
      · simp [List.lookup, hL]
      · have hb : (L' == L) = false := beq_eq_false_iff_ne.mpr hL
        simp [List.lookup, hb]

theorem drOf_addNewLabel (g : Grouped) (L L' : String) :
    drOf (addNewLabel g L) L' = drOf g L' := by
  unfold addNewLabel
  cases h : g.lookup L with
  | some s => rfl
  | none =>
    unfold drOf
    rw [lookup_append]
    cases h2 : g.lookup L' with
    | some s => rfl
    | none =>
      by_cases hL : L' = L
      · simp [List.lookup, hL]
      · have hb : (L' == L) = false := beq_eq_false_iff_ne.mpr hL
        simp [List.lookup, hb]

theorem countTg_addNewLabel (g : Grouped) (L : String) (l : String) :
    countTg (addNewLabel g L) l = countTg g l := by
  unfold addNewLabel
  cases h : g.lookup L with
  | some s => rfl
  | none => rw [countTg_append]; simp [countTg]

theorem countDr_addNewLabel (g : Grouped) (L : String) (l : String) :
    countDr (addNewLabel g L) l = countDr g l := by
  unfold addNewLabel
  cases h : g.lookup L with
  | some s => rfl
  | none => rw [countDr_append]; simp [countDr]

theorem lookup_addNewLabel (g : Grouped) (L : String) :
    ((addNewLabel g L).lookup L).isSome = true := by
  unfold addNewLabel
  cases h : g.lookup L with
  | some s => simp [h]
  | none => rw [lookup_append, h]; simp [List.lookup]

theorem lookup_appendTg (g : Grouped) (L t L' : String) :
    ((appendTg g L t).lookup L').isSome = (g.lookup L').isSome := by
  induction g with
  | nil => rfl
  | cons e rest ih =>
    obtain ⟨K, s⟩ := e
    unfold appendTg
    by_cases h : K = L
    · rw [if_pos h]
      by_cases h2 : L' = K
      · simp [List.lookup, h2]
      · have hb : (L' == K) = false := beq_eq_false_iff_ne.mpr h2
        simp [List.lookup, hb]
    · rw [if_neg h]
      by_cases h2 : L' = K
      · simp [List.lookup, h2]
      · have hb : (L' == K) = false := beq_eq_false_iff_ne.mpr h2
        simp [List.lookup, hb, ih]

theorem tgOf_appendTg_self (L t : String) :
    ∀ (g : Grouped), (g.lookup L).isSome = true →
      tgOf (appendTg g L t) L = tgOf g L ++ [t] := by
  intro g
  induction g with
  | nil => intro h; simp [List.lookup] at h
  | cons e rest ih =>
    obtain ⟨K, s⟩ := e
    intro h
    unfold appendTg
    by_cases hK : K = L
    · rw [if_pos hK, tgOf_cons, tgOf_cons, if_pos hK, if_pos hK]
    · rw [if_neg hK, tgOf_cons, tgOf_cons, if_neg hK, if_neg hK]
      apply ih
      have hb : (L == K) = false := beq_eq_false_iff_ne.mpr (fun e => hK e.symm)
      simpa [List.lookup, hb] using h

theorem tgOf_appendTg_other (L t L' : String) (h : L' ≠ L) :
    ∀ (g : Grouped), tgOf (appendTg g L t) L' = tgOf g L' := by
  intro g
  induction g with
  | nil => rfl
  | cons e rest ih =>
    obtain ⟨K, s⟩ := e
    unfold appendTg
    by_cases hK : K = L
    · rw [if_pos hK, tgOf_cons, tgOf_cons]
      have : ¬ K = L' := fun e => h (e ▸ hK ▸ rfl)
      rw [if_neg this, if_neg this]
    · rw [if_neg hK, tgOf_cons, tgOf_cons, ih]

theorem drOf_appendTg (L t L' : String) :
    ∀ (g : Grouped), drOf (appendTg g L t) L' = drOf g L' := by
  intro g
  induction g with
  | nil => rfl
  | cons e rest ih =>
    obtain ⟨K, s⟩ := e
    unfold appendTg
    by_cases hK : K = L
    · rw [if_pos hK, drOf_cons, drOf_cons]
    · rw [if_neg hK, drOf_cons, drOf_cons, ih]

theorem countTg_appendTg (L t l : String) :
    ∀ (g : Grouped), (g.lookup L).isSome = true →
      countTg (appendTg g L t) l = countTg g l + (if t = l then 1 else 0) := by
  intro g
  induction g with
  | nil => intro h; simp [List.lookup] at h
  | cons e rest ih =>
    obtain ⟨K, s⟩ := e
    intro h
    unfold appendTg
    by_cases hK : K = L
    · rw [if_pos hK, countTg_cons, countTg_cons, List.count_append]
      have : List.count l [t] = if t = l then 1 else 0 := by
        by_cases ht : t = l
        · subst ht; simp
        · have hb : (l == t) = false := beq_eq_false_iff_ne.mpr (fun e => ht e.symm)
          simp [List.count_singleton, hb, ht]
      omega
    · rw [if_neg hK, countTg_cons, countTg_cons]
      have hb : (L == K) = false := beq_eq_false_iff_ne.mpr (fun e => hK e.symm)
      rw [ih (by simpa [List.lookup, hb] using h)]
      omega

theorem countDr_appendTg (L t l : String) :
    ∀ (g : Grouped), countDr (appendTg g L t) l = countDr g l := by
  intro g
  induction g with
  | nil => rfl
  | cons e rest ih =>
    obtain ⟨K, s⟩ := e
    unfold appendTg
    by_cases hK : K = L
    · rw [if_pos hK, countDr_cons, countDr_cons]
    · rw [if_neg hK, countDr_cons, countDr_cons, ih]

theorem lookup_appendDr (g : Grouped) (L t L' : String) :
    ((appendDr g L t).lookup L').isSome = (g.lookup L').isSome := by
  induction g with
  | nil => rfl
  | cons e rest ih =>
    obtain ⟨K, s⟩ := e
    unfold appendDr
    by_cases h : K = L
    · rw [if_pos h]
      by_cases h2 : L' = K
      · simp [List.lookup, h2]
      · have hb : (L' == K) = false := beq_eq_false_iff_ne.mpr h2
        simp [List.lookup, hb]
    · rw [if_neg h]
      by_cases h2 : L' = K
      · simp [List.lookup, h2]
      · have hb : (L' == K) = false := beq_eq_false_iff_ne.mpr h2
        simp [List.lookup, hb, ih]

theorem drOf_appendDr_self (L t : String) :
    ∀ (g : Grouped), (g.lookup L).isSome = true →
      drOf (appendDr g L t) L = drOf g L ++ [t] := by
  intro g
  induction g with
  | nil => intro h; simp [List.lookup] at h
  | cons e rest ih =>
    obtain ⟨K, s⟩ := e
    intro h
    unfold appendDr
    by_cases hK : K = L
    · rw [if_pos hK, drOf_cons, drOf_cons, if_pos hK, if_pos hK]
    · rw [if_neg hK, drOf_cons, drOf_cons, if_neg hK, if_neg hK]
      apply ih
      have hb : (L == K) = false := beq_eq_false_iff_ne.mpr (fun e => hK e.symm)
      simpa [List.lookup, hb] using h

theorem drOf_appendDr_other (L t L' : String) (h : L' ≠ L) :
    ∀ (g : Grouped), drOf (appendDr g L t) L' = drOf g L' := by
  intro g
  induction g with
  | nil => rfl
  | cons e rest ih =>
    obtain ⟨K, s⟩ := e
    unfold appendDr
    by_cases hK : K = L
    · rw [if_pos hK, drOf_cons, drOf_cons]
      have : ¬ K = L' := fun e => h (e ▸ hK ▸ rfl)
      rw [if_neg this, if_neg this]
    · rw [if_neg hK, drOf_cons, drOf_cons, ih]

theorem tgOf_appendDr (L t L' : String) :
    ∀ (g : Grouped), tgOf (appendDr g L t) L' = tgOf g L' := by
  intro g
  induction g with
  | nil => rfl
  | cons e rest ih =>
    obtain ⟨K, s⟩ := e
    unfold appendDr
    by_cases hK : K = L
    · rw [if_pos hK, tgOf_cons, tgOf_cons]
    · rw [if_neg hK, tgOf_cons, tgOf_cons, ih]

theorem countDr_appendDr (L t l : String) :
    ∀ (g : Grouped), (g.lookup L).isSome = true →
      countDr (appendDr g L t) l = countDr g l + (if t = l then 1 else 0) := by
  intro g
  induction g with
  | nil => intro h; simp [List.lookup] at h
  | cons e rest ih =>
    obtain ⟨K, s⟩ := e
    intro h
    unfold appendDr
    by_cases hK : K = L
    · rw [if_pos hK, countDr_cons, countDr_cons, List.count_append]
      have : List.count l [t] = if t = l then 1 else 0 := by
        by_cases ht : t = l
        · subst ht; simp
        · have hb : (l == t) = false := beq_eq_false_iff_ne.mpr (fun e => ht e.symm)
          simp [List.count_singleton, hb, ht]
      omega
    · rw [if_neg hK, countDr_cons, countDr_cons]
      have hb : (L == K) = false := beq_eq_false_iff_ne.mpr (fun e => hK e.symm)
      rw [ih (by simpa [List.lookup, hb] using h)]
      omega

theorem countTg_appendDr (L t l : String) :
    ∀ (g : Grouped), countTg (appendDr g L t) l = countTg g l := by
  intro g
  induction g with
  | nil => rfl
  | cons e rest ih =>
    obtain ⟨K, s⟩ := e
    unfold appendDr
    by_cases hK : K = L
    · rw [if_pos hK, countTg_cons, countTg_cons]
    · rw [if_neg hK, countTg_cons, countTg_cons, ih]

end Bp

namespace Bp

theorem processTg_inv (doc : BDoc) (hs : List (Nat × String)) (a : Nat × String)
    (g1 : Grouped)
    (hkey : (g1.lookup (anchorLabel doc a)).isSome = true)
    (htg : ∀ L0, tgOf g1 L0 = (specTgSeq hs).filter (fun l => firstTgLabel doc hs l == some L0))
    (hcnt : ∀ l, countTg g1 l ≤ 1 ∧ (countTg g1 l = 1 ↔ l ∈ specTgSeq hs)) :
    (processTg (anchorLabel doc a) (anchorTg a) g1 (specTgSeq hs)).2 = specTgSeq (hs ++ [a])
    ∧ (∀ L0, tgOf (processTg (anchorLabel doc a) (anchorTg a) g1 (specTgSeq hs)).1 L0
        = (specTgSeq (hs ++ [a])).filter (fun l => firstTgLabel doc (hs ++ [a]) l == some L0))
    ∧ (∀ l, countTg (processTg (anchorLabel doc a) (anchorTg a) g1 (specTgSeq hs)).1 l ≤ 1
        ∧ (countTg (processTg (anchorLabel doc a) (anchorTg a) g1 (specTgSeq hs)).1 l = 1
            ↔ l ∈ specTgSeq (hs ++ [a])))
    ∧ (∀ L0, drOf (processTg (anchorLabel doc a) (anchorTg a) g1 (specTgSeq hs)).1 L0
        = drOf g1 L0)
    ∧ (∀ l, countDr (processTg (anchorLabel doc a) (anchorTg a) g1 (specTgSeq hs)).1 l
        = countDr g1 l)
    ∧ (((processTg (anchorLabel doc a) (anchorTg a) g1 (specTgSeq hs)).1.lookup
          (anchorLabel doc a)).isSome = true) := by
  cases ht : anchorTg a with
  | none =>
    have hseq : specTgSeq (hs ++ [a]) = specTgSeq hs := by rw [specTgSeq_snoc, ht]
    refine ⟨by simp [processTg, hseq], ?_, ?_, ?_, ?_, ?_⟩
    · intro L0
      rw [hseq]
      show tgOf g1 L0 = _
      rw [htg L0]
      exact (List.filter_congr (fun l hl => by rw [firstTgLabel_snoc_mem a hl])).symm
    · intro l
      rw [hseq]
      exact hcnt l
    · intro L0; rfl
    · intro l; rfl
    · exact hkey
  | some t =>
    by_cases hmem : t ∈ specTgSeq hs
    · have hseq : specTgSeq (hs ++ [a]) = specTgSeq hs := by
        rw [specTgSeq_snoc, ht]; simp [hmem]
      have hpt : processTg (anchorLabel doc a) (some t) g1 (specTgSeq hs)
          = (g1, specTgSeq hs) := by simp [processTg, hmem]
      refine ⟨by rw [hpt, hseq], ?_, ?_, ?_, ?_, ?_⟩
      · intro L0
        rw [hpt, hseq]
        show tgOf g1 L0 = _
        rw [htg L0]
        exact (List.filter_congr (fun l hl => by rw [firstTgLabel_snoc_mem a hl])).symm
      · intro l
        rw [hpt, hseq]
        exact hcnt l
      · intro L0; rw [hpt]
      · intro l; rw [hpt]
      · rw [hpt]; exact hkey
    · have hseq : specTgSeq (hs ++ [a]) = specTgSeq hs ++ [t] := by
        rw [specTgSeq_snoc, ht]; simp [hmem]
      have hpt : processTg (anchorLabel doc a) (some t) g1 (specTgSeq hs)
          = (appendTg g1 (anchorLabel doc a) t, specTgSeq hs ++ [t]) := by
        simp [processTg, hmem]
      have hnew : firstTgLabel doc (hs ++ [a]) t = some (anchorLabel doc a) :=
        firstTgLabel_snoc_new hmem ht
      refine ⟨by rw [hpt, hseq], ?_, ?_, ?_, ?_, ?_⟩
      · intro L0
        rw [hpt, hseq]
        show tgOf (appendTg g1 (anchorLabel doc a) t) L0 = _
        rw [List.filter_append]
        have hcong : (specTgSeq hs).filter (fun l => firstTgLabel doc (hs ++ [a]) l == some L0)
            = (specTgSeq hs).filter (fun l => firstTgLabel doc hs l == some L0) :=
          List.filter_congr (fun l hl => by rw [firstTgLabel_snoc_mem a hl])
        by_cases hL0 : L0 = anchorLabel doc a
        · subst hL0
          rw [tgOf_appendTg_self _ _ _ hkey, htg (anchorLabel doc a), hcong]
          simp [List.filter, hnew]
        · rw [tgOf_appendTg_other _ _ _ hL0, htg L0, hcong]
          have : (firstTgLabel doc (hs ++ [a]) t == some L0) = false := by
            rw [hnew]
            simp [beq_eq_false_iff_ne]
            exact fun e => hL0 e.symm
          simp [List.filter, this]
      · intro l
        rw [hpt, hseq]
        show countTg (appendTg g1 (anchorLabel doc a) t) l ≤ 1
          ∧ (countTg (appendTg g1 (anchorLabel doc a) t) l = 1 ↔ l ∈ specTgSeq hs ++ [t])
        rw [countTg_appendTg _ _ _ _ hkey]
        by_cases hl : t = l
        · subst hl
          have hc := hcnt t
          have hne : countTg g1 t ≠ 1 := fun h => hmem (hc.2.mp h)
          have h0 : countTg g1 t = 0 := by omega
          rw [h0]
          simp
        · have hc := hcnt l
          have hmem2 : l ∈ specTgSeq hs ++ [t] ↔ l ∈ specTgSeq hs := by
            simp [List.mem_append]
            exact fun e => absurd e.symm hl
          rw [if_neg hl, hmem2]
          constructor
          · omega
          · constructor
            · intro h; exact hc.2.mp (by omega)
            · intro h; have := hc.2.mpr h; omega
      · intro L0
        rw [hpt]
        exact drOf_appendTg _ _ _ _
      · intro l
        rw [hpt]
        exact countDr_appendTg _ _ _ _
      · rw [hpt]
        show ((appendTg g1 (anchorLabel doc a) t).lookup (anchorLabel doc a)).isSome = true
        rw [lookup_appendTg]
        exact hkey

end Bp

namespace Bp

theorem processDr_inv (doc : BDoc) (hs : List (Nat × String)) (a : Nat × String)
    (g2 : Grouped)
    (hkey : (g2.lookup (anchorLabel doc a)).isSome = true)
    (hdr : ∀ L0, drOf g2 L0 = (specDrSeq hs).filter (fun l => firstDrLabel doc hs l == some L0))
    (hcnt : ∀ l, countDr g2 l ≤ 1 ∧ (countDr g2 l = 1 ↔ l ∈ specDrSeq hs)) :
    (processDr (anchorLabel doc a) (anchorDr a) g2 (specDrSeq hs)).2 = specDrSeq (hs ++ [a])
    ∧ (∀ L0, drOf (processDr (anchorLabel doc a) (anchorDr a) g2 (specDrSeq hs)).1 L0
        = (specDrSeq (hs ++ [a])).filter (fun l => firstDrLabel doc (hs ++ [a]) l == some L0))
    ∧ (∀ l, countDr (processDr (anchorLabel doc a) (anchorDr a) g2 (specDrSeq hs)).1 l ≤ 1
        ∧ (countDr (processDr (anchorLabel doc a) (anchorDr a) g2 (specDrSeq hs)).1 l = 1
            ↔ l ∈ specDrSeq (hs ++ [a])))
    ∧ (∀ L0, tgOf (processDr (anchorLabel doc a) (anchorDr a) g2 (specDrSeq hs)).1 L0
        = tgOf g2 L0)
    ∧ (∀ l, countTg (processDr (anchorLabel doc a) (anchorDr a) g2 (specDrSeq hs)).1 l
        = countTg g2 l) := by
  cases ht : anchorDr a with
  | none =>
    have hseq : specDrSeq (hs ++ [a]) = specDrSeq hs := by rw [specDrSeq_snoc, ht]
    refine ⟨by simp [processDr, hseq], ?_, ?_, ?_, ?_⟩
    · intro L0
      rw [hseq]
      show drOf g2 L0 = _
      rw [hdr L0]
      exact (List.filter_congr (fun l hl => by rw [firstDrLabel_snoc_mem a hl])).symm
    · intro l
      rw [hseq]
      exact hcnt l
    · intro L0; rfl
    · intro l; rfl
  | some t =>
    by_cases hmem : t ∈ specDrSeq hs
    · have hseq : specDrSeq (hs ++ [a]) = specDrSeq hs := by
        rw [specDrSeq_snoc, ht]; simp [hmem]
      have hpt : processDr (anchorLabel doc a) (some t) g2 (specDrSeq hs)
          = (g2, specDrSeq hs) := by simp [processDr, hmem]
      refine ⟨by rw [hpt, hseq], ?_, ?_, ?_, ?_⟩
      · intro L0
        rw [hpt, hseq]
        show drOf g2 L0 = _
        rw [hdr L0]
        exact (List.filter_congr (fun l hl => by rw [firstDrLabel_snoc_mem a hl])).symm
      · intro l
        rw [hpt, hseq]
        exact hcnt l
      · intro L0; rw [hpt]
      · intro l; rw [hpt]
    · have hseq : specDrSeq (hs ++ [a]) = specDrSeq hs ++ [t] := by
        rw [specDrSeq_snoc, ht]; simp [hmem]
      have hpt : processDr (anchorLabel doc a) (some t) g2 (specDrSeq hs)
          = (appendDr g2 (anchorLabel doc a) t, specDrSeq hs ++ [t]) := by
        simp [processDr, hmem]
      have hnew : firstDrLabel doc (hs ++ [a]) t = some (anchorLabel doc a) :=
        firstDrLabel_snoc_new hmem ht
      refine ⟨by rw [hpt, hseq], ?_, ?_, ?_, ?_⟩
      · intro L0
        rw [hpt, hseq]
        show drOf (appendDr g2 (anchorLabel doc a) t) L0 = _
        rw [List.filter_append]
        have hcong : (specDrSeq hs).filter (fun l => firstDrLabel doc (hs ++ [a]) l == some L0)
            = (specDrSeq hs).filter (fun l => firstDrLabel doc hs l == some L0) :=
          List.filter_congr (fun l hl => by rw [firstDrLabel_snoc_mem a hl])
        by_cases hL0 : L0 = anchorLabel doc a
        · subst hL0
          rw [drOf_appendDr_self _ _ _ hkey, hdr (anchorLabel doc a), hcong]
          simp [List.filter, hnew]
        · rw [drOf_appendDr_other _ _ _ hL0, hdr L0, hcong]
          have : (firstDrLabel doc (hs ++ [a]) t == some L0) = false := by
            rw [hnew]
            simp [beq_eq_false_iff_ne]
            exact fun e => hL0 e.symm
          simp [List.filter, this]
      · intro l
        rw [hpt, hseq]
        show countDr (appendDr g2 (anchorLabel doc a) t) l ≤ 1
          ∧ (countDr (appendDr g2 (anchorLabel doc a) t) l = 1 ↔ l ∈ specDrSeq hs ++ [t])
        rw [countDr_appendDr _ _ _ _ hkey]
        by_cases hl : t = l
        · subst hl
          have hc := hcnt t
          have hne : countDr g2 t ≠ 1 := fun h => hmem (hc.2.mp h)
          have h0 : countDr g2 t = 0 := by omega
          rw [h0]
          simp
        · have hc := hcnt l
          have hmem2 : l ∈ specDrSeq hs ++ [t] ↔ l ∈ specDrSeq hs := by
            simp [List.mem_append]
            exact fun e => absurd e.symm hl
          rw [if_neg hl, hmem2]
          constructor
          · omega
          · constructor
            · intro h; exact hc.2.mp (by omega)
            · intro h; have := hc.2.mpr h; omega
      · intro L0
        rw [hpt]
        exact tgOf_appendDr _ _ _ _
      · intro l
        rw [hpt]
        exact countTg_appendDr _ _ _ _

end Bp

namespace Bp

/-- The extractor's loop invariant over the processed prefix `hs` of the
anchor list: the seen-sets are the first-occurrence sequences, every
label's lists are characterized by first-seen order and first-label
attribution, and every link is counted at most once per category. -/
def ExtractInv (doc : BDoc) (hs : List (Nat × String))
    (st : Grouped × List String × List String) : Prop :=
  st.2.1 = specTgSeq hs ∧ st.2.2 = specDrSeq hs
  ∧ (∀ L0, tgOf st.1 L0 = (specTgSeq hs).filter (fun l => firstTgLabel doc hs l == some L0))
  ∧ (∀ L0, drOf st.1 L0 = (specDrSeq hs).filter (fun l => firstDrLabel doc hs l == some L0))
  ∧ (∀ l, countTg st.1 l ≤ 1 ∧ (countTg st.1 l = 1 ↔ l ∈ specTgSeq hs))
  ∧ (∀ l, countDr st.1 l ≤ 1 ∧ (countDr st.1 l = 1 ↔ l ∈ specDrSeq hs))

theorem ExtractInv_init (doc : BDoc) : ExtractInv doc [] ([], [], []) := by
  refine ⟨rfl, rfl, ?_, ?_, ?_, ?_⟩ <;>
    intro x <;>
    simp [tgOf, drOf, countTg, countDr, specTgSeq, specDrSeq, dedupFirstAux, List.lookup]

theorem ExtractInv_step {doc : BDoc} {hs : List (Nat × String)}
    {st : Grouped × List String × List String} (a : Nat × String)
    (h : ExtractInv doc hs st) : ExtractInv doc (hs ++ [a]) (exStep doc st a) := by
  obtain ⟨g, stg, sdr⟩ := st
  obtain ⟨h1, h2, h3, h4, h5, h6⟩ := h
  simp only at h1 h2 h3 h4 h5 h6
  subst h1
  subst h2
  by_cases hskip : ((anchorTg a).isNone && (anchorDr a).isNone) = true
  · have ht : anchorTg a = none := by
      rw [Bool.and_eq_true] at hskip
      exact Option.isNone_iff_eq_none.mp hskip.1
    have hd : anchorDr a = none := by
      rw [Bool.and_eq_true] at hskip
      exact Option.isNone_iff_eq_none.mp hskip.2
    have hstep : exStep doc (g, specTgSeq hs, specDrSeq hs) a
        = (g, specTgSeq hs, specDrSeq hs) := by
      unfold exStep
      rw [if_pos hskip]
    rw [hstep]
    have hseqT : specTgSeq (hs ++ [a]) = specTgSeq hs := by rw [specTgSeq_snoc, ht]
    have hseqD : specDrSeq (hs ++ [a]) = specDrSeq hs := by rw [specDrSeq_snoc, hd]
    refine ⟨by simp [hseqT], by simp [hseqD], ?_, ?_, ?_, ?_⟩
    · intro L0
      show tgOf g L0 = _
      rw [hseqT, h3 L0]
      exact (List.filter_congr (fun l hl => by rw [firstTgLabel_snoc_mem a hl])).symm
    · intro L0
      show drOf g L0 = _
      rw [hseqD, h4 L0]
      exact (List.filter_congr (fun l hl => by rw [firstDrLabel_snoc_mem a hl])).symm
    · intro l
      rw [hseqT]
      exact h5 l
    · intro l
      rw [hseqD]
      exact h6 l
  · have hkey1 : ((addNewLabel g (anchorLabel doc a)).lookup (anchorLabel doc a)).isSome
        = true := lookup_addNewLabel _ _
    have htg1 : ∀ L0, tgOf (addNewLabel g (anchorLabel doc a)) L0
        = (specTgSeq hs).filter (fun l => firstTgLabel doc hs l == some L0) := by
      intro L0; rw [tgOf_addNewLabel]; exact h3 L0
    have hcntT1 : ∀ l, countTg (addNewLabel g (anchorLabel doc a)) l ≤ 1
        ∧ (countTg (addNewLabel g (anchorLabel doc a)) l = 1 ↔ l ∈ specTgSeq hs) := by
      intro l; rw [countTg_addNewLabel]; exact h5 l
    obtain ⟨T1, T2, T3, T4, T5, T6⟩ :=
      processTg_inv doc hs a (addNewLabel g (anchorLabel doc a)) hkey1 htg1 hcntT1
    have hdr2 : ∀ L0,
        drOf (processTg (anchorLabel doc a) (anchorTg a)
          (addNewLabel g (anchorLabel doc a)) (specTgSeq hs)).1 L0
        = (specDrSeq hs).filter (fun l => firstDrLabel doc hs l == some L0) := by
      intro L0; rw [T4 L0, drOf_addNewLabel]; exact h4 L0
    have hcntD2 : ∀ l,
        countDr (processTg (anchorLabel doc a) (anchorTg a)
          (addNewLabel g (anchorLabel doc a)) (specTgSeq hs)).1 l ≤ 1
        ∧ (countDr (processTg (anchorLabel doc a) (anchorTg a)
            (addNewLabel g (anchorLabel doc a)) (specTgSeq hs)).1 l = 1
              ↔ l ∈ specDrSeq hs) := by
      intro l; rw [T5 l, countDr_addNewLabel]; exact h6 l
    obtain ⟨D1, D2, D3, D4, D5⟩ :=
      processDr_inv doc hs a _ T6 hdr2 hcntD2
    have hstep : exStep doc (g, specTgSeq hs, specDrSeq hs) a
        = ((processDr (anchorLabel doc a) (anchorDr a)
              (processTg (anchorLabel doc a) (anchorTg a)
                (addNewLabel g (anchorLabel doc a)) (specTgSeq hs)).1 (specDrSeq hs)).1,
           (processTg (anchorLabel doc a) (anchorTg a)
              (addNewLabel g (anchorLabel doc a)) (specTgSeq hs)).2,
           (processDr (anchorLabel doc a) (anchorDr a)
              (processTg (anchorLabel doc a) (anchorTg a)
                (addNewLabel g (anchorLabel doc a)) (specTgSeq hs)).1 (specDrSeq hs)).2) := by
      unfold exStep
      rw [if_neg hskip]
    rw [hstep]
    refine ⟨T1, D1, ?_, ?_, ?_, ?_⟩
    · intro L0
      show tgOf _ L0 = _
      rw [D4 L0]
      exact T2 L0
    · intro L0
      exact D2 L0
    · intro l
      show countTg _ l ≤ 1 ∧ _
      rw [D5 l]
      exact T3 l
    · intro l
      exact D3 l

theorem ExtractInv_fold (doc : BDoc) :
    ∀ (rest hsDone : List (Nat × String)) (st : Grouped × List String × List String),
      ExtractInv doc hsDone st →
      ExtractInv doc (hsDone ++ rest) (rest.foldl (exStep doc) st) := by
  intro rest
  induction rest with
  | nil => intro hsDone st h; simpa using h
  | cons a rest ih =>
    intro hsDone st h
    have h2 := ExtractInv_step a h
    have h3 := ih (hsDone ++ [a]) (exStep doc st a) h2
    have heq : (hsDone ++ [a]) ++ rest = hsDone ++ (a :: rest) := by simp
    rw [heq] at h3
    exact h3

/-- The extractor's state after the whole anchor list satisfies the
invariant at the whole list. -/
theorem extract_inv (doc : BDoc) (anchors : List (Nat × String)) :
    ExtractInv doc anchors (anchors.foldl (exStep doc) ([], [], [])) := by
  have h := ExtractInv_fold doc anchors [] ([], [], []) (ExtractInv_init doc)
  simpa using h

end Bp

namespace Bp

/-! ### Result Assembler: `_label_sort_key` and the stable sort of
`sorted(grouped.keys(), key=_label_sort_key)` -/

/-- Numeric value of a digit run (`int` on the matched digits). -/
def digitsToNat (ds : List Char) : Nat := ds.foldl (fun n c => n * 10 + (c.toNat - 48)) 0

/-- First maximal digit run of the label, as a number:
`re.findall(r"\d+", label)[0]`. -/
def firstNat : List Char → Option Nat
  | [] => none
  | c :: cs =>
    if isDigitC c then some (digitsToNat (c :: cs.takeWhile isDigitC))
    else firstNat cs

/-- Model of `_label_sort_key`: the first integer in the label, else the sentinel
`10**9`. -/
def labelSortKey (label : String) : Nat := (firstNat label.data).getD 1000000000

/-- Stable insertion steps of Python's stable `sorted`: a new (earlier)
element goes before the first element of greater-or-equal key. -/
def insertLabel (x : String) : List String → List String
  | [] => [x]
  | y :: ys => if labelSortKey x ≤ labelSortKey y then x :: y :: ys else y :: insertLabel x ys

/-- Model of `sorted(labels, key=_label_sort_key)` (stable sorts agree, so
insertion sort models Python's Timsort output exactly). -/
def sortLabels (ls : List String) : List String := ls.foldr insertLabel []

/-! ### `_abbr_label`

`(?:episode|ep|e)\s*(\d+)(?:\s*[-–—]\s*(\d+))?` with `re.I`, `search`
semantics; note this alternation has no `episodes` branch and no season
prefix.  The groups are the two digit runs. -/

/-- After a token, match `\s*(\d+)` and the optional dash-range group. -/
def abbrAfterTok (r : List Char) : Option (List Char × Option (List Char)) :=
  let (_, r1) := spanP isWS r
  let (d1, r2) := spanP isDigitC r1
  if d1.isEmpty then none
  else
    let (_, r3) := spanP isWS r2
    match r3 with
    | c :: r4 =>
      if isDash c then
        let (_, r5) := spanP isWS r4
        let (d2, _) := spanP isDigitC r5
        if d2.isEmpty then some (d1, none) else some (d1, some d2)
      else some (d1, none)
    | [] => some (d1, none)

/-- The abbreviation pattern anchored at the front of `s`, alternatives in
Python order (`episode`, `ep`, `e`). -/
def abbrMatchAt (s : List Char) : Option (List Char × Option (List Char)) :=
  match stripCI "episode".data s with
  | some (_, r) =>
    match abbrAfterTok r with
    | some g => some g
    | none => abbrMatchRest s
  | none => abbrMatchRest s
where
  /-- The remaining alternatives `ep`, `e`. -/
  abbrMatchRest (s : List Char) : Option (List Char × Option (List Char)) :=
    match stripCI "ep".data s with
    | some (_, r) =>
      match abbrAfterTok r with
      | some g => some g
      | none => abbrMatchRest2 s
    | none => abbrMatchRest2 s
  /-- The last alternative `e`. -/
  abbrMatchRest2 (s : List Char) : Option (List Char × Option (List Char)) :=
    match stripCI "e".data s with
    | some (_, r) => abbrAfterTok r
    | none => none

/-- The `search` loop for the abbreviation pattern: leftmost match wins. -/
def abbrSearch : List Char → Option (List Char × Option (List Char))
  | [] => none
  | c :: cs =>
    match abbrMatchAt (c :: cs) with
    | some g => some g
    | none => abbrSearch cs

/-- Python `f"{n:02d}"` for a natural number. -/
def pad2 (n : Nat) : String := if n < 10 then "0" ++ toString n else toString n

/-- Model of `_abbr_label`: both captured numbers are formatted with `:02d`. -/
def abbrLabel (label : String) : String :=
  match abbrSearch label.data with
  | none => label
  | some (d1, none) => "E" ++ pad2 (digitsToNat d1)
  | some (d1, some d2) => "E" ++ pad2 (digitsToNat d1) ++ "-" ++ pad2 (digitsToNat d2)

/-- The abbreviation as the specification words it: the single/first
number is zero-padded to 2 digits, while the second number is kept
exactly as written in the label.  Second, spec-worded definition used to
compare against `abbrLabel` from the source. -/
def abbrLabelSpec (label : String) : String :=
  match abbrSearch label.data with
  | none => label
  | some (d1, none) => "E" ++ pad2 (digitsToNat d1)
  | some (d1, some d2) => "E" ++ pad2 (digitsToNat d1) ++ "-" ++ List.asString d2

/-! ### `extract_id_from_url` -/

/-- The query component of a URL: everything after the first `?`, with the
fragment after the first `#` removed first (`urlparse(u).query`). -/
def queryOf (u : String) : List Char :=
  (((u.data.takeWhile (fun c => c ≠ '#')).dropWhile (fun c => c ≠ '?')).drop 1)

/-- Split a character list on a separator character. -/
def splitOnChar (sep : Char) : List Char → List (List Char)
  | [] => [[]]
  | c :: cs =>
    match splitOnChar sep cs with
    | [] => [[]]
    | r :: rs => if c = sep then [] :: r :: rs else (c :: r) :: rs

/-- One `name=value` pair of `parse_qs` (blank values and parts without
`=` are dropped; percent-decoding is not modelled). -/
def pairOf (seg : List Char) : Option (List Char × List Char) :=
  match seg.dropWhile (fun c => c ≠ '=') with
  | _ :: v => if v.isEmpty then none else some (seg.takeWhile (fun c => c ≠ '='), v)
  | [] => none

/-- Model of `parse_qs(urlparse(u).query)["id"][0]` guarded by presence. -/
def qsId (u : String) : Option String :=
  (((splitOnChar '&' (queryOf u)).filterMap pairOf).find?
      (fun kv => kv.1 == "id".data)).map (fun kv => ⟨kv.2⟩)

/-- The regex `id=([A-Za-z0-9]+)` anchored at the front of `s`. -/
def bareIdAt : List Char → Option (List Char)
  | 'i' :: 'd' :: '=' :: r =>
    match spanP isAlnum r with
    | (d, _) => if d.isEmpty then none else some d
  | _ => none

/-- Model of `re.search(r"id=([A-Za-z0-9]+)", s)`: leftmost full match wins. -/
def bareIdSearch : List Char → Option (List Char)
  | [] => none
  | c :: cs =>
    match bareIdAt (c :: cs) with
    | some d => some d
    | none => bareIdSearch cs

/-- The regex `[?&]id=([A-Za-z0-9]+)` anchored at the front of `s`. -/
def urlIdAt : List Char → Option (List Char)
  | c :: r => if c = '?' || c = '&' then bareIdAt r else none
  | [] => none

/-- Model of `re.search(r"[?&]id=([A-Za-z0-9]+)", s)`. -/
def urlIdSearch : List Char → Option (List Char)
  | [] => none
  | c :: cs =>
    match urlIdAt (c :: cs) with
    | some d => some d
    | none => urlIdSearch cs

/-- Model of `extract_id_from_url(u, body)`: query parameter `id`, then the
`[?&]id=` regex over the URL, then the bare `id=` regex over the body. -/
def extractIdFromUrl (u : String) (body : String) : Option String :=
  match qsId u with
  | some v => some v
  | none =>
    match urlIdSearch u.data with
    | some v => some ⟨v⟩
    | none =>
      match bareIdSearch body.data with
      | some v => some ⟨v⟩
      | none => none

/-- The id extraction as the specification words it: query parameter
first, then one generic `id=` regex over the URL, then the same regex
over the body.  Second, spec-worded definition used to compare against
`extractIdFromUrl` from the source. -/
def specIdExtract (u : String) (body : String) : Option String :=
  match qsId u with
  | some v => some v
  | none =>
    match bareIdSearch u.data with
    | some v => some ⟨v⟩
    | none =>
      match bareIdSearch body.data with
      | some v => some ⟨v⟩
      | none => none

end Bp

namespace Bp

/-! ### Bypass response parsing and the Redirect Resolver

`requests` and BeautifulSoup are external, so the resolver is modelled
over an environment of oracles (`GET` following redirects, the bypass
`POST`, and the page fetch-and-parse), and it returns the list of network
calls it issued alongside the `(final_page, title, grouped)` triple.
Oracle errors carry the exception message `str(e)`. -/

/-- JSON whitespace accepted by `json.loads`. -/
def isJsonWS (c : Char) : Bool := c = ' ' || c = '\t' || c = '\n' || c = '\r'

/-- Body of a JSON string literal after the opening quote: plain
characters and the single-character escapes. -/
def jsStrBody : List Char → Option (List Char × List Char)
  | [] => none
  | c :: r =>
    if c = Char.ofNat 34 then some ([], r)
    else if c = '\\' then
      match r with
      | e :: r2 =>
        if e = Char.ofNat 34 then (jsStrBody r2).map (fun p => (Char.ofNat 34 :: p.1, p.2))
        else if e = '\\' then (jsStrBody r2).map (fun p => ('\\' :: p.1, p.2))
        else if e = '/' then (jsStrBody r2).map (fun p => ('/' :: p.1, p.2))
        else if e = 'n' then (jsStrBody r2).map (fun p => ('\n' :: p.1, p.2))
        else if e = 't' then (jsStrBody r2).map (fun p => ('\t' :: p.1, p.2))
        else if e = 'r' then (jsStrBody r2).map (fun p => ('\r' :: p.1, p.2))
        else none
      | [] => none
    else (jsStrBody r).map (fun p => (c :: p.1, p.2))

/-- A JSON string literal including its quotes. -/
def jsStr : List Char → Option (List Char × List Char)
  | c :: r => if c = Char.ofNat 34 then jsStrBody r else none
  | [] => none

/-- The `"key": "value"` pairs of a flat JSON object, after the opening
brace, up to and including the closing brace. -/
def jsPairs : Nat → List Char → Option (List (String × String) × List Char)
  | 0, _ => none
  | fuel + 1, s =>
    match jsStr (s.dropWhile isJsonWS) with
    | none => none
    | some (k, r1) =>
      match r1.dropWhile isJsonWS with
      | ':' :: r2 =>
        match jsStr (r2.dropWhile isJsonWS) with
        | none => none
        | some (v, r3) =>
          match r3.dropWhile isJsonWS with
          | c :: r4 =>
            if c = ',' then
              (jsPairs fuel r4).map (fun p => ((⟨k⟩, ⟨v⟩) :: p.1, p.2))
            else if c = Char.ofNat 125 then some ([(⟨k⟩, ⟨v⟩)], r4)
            else none
          | [] => none
      | _ => none

/-- Models `json.loads(data)["url"]` for the bypass service's flat
string-valued JSON object payloads; every other shape is a parse error
(json.loads raising, or a `KeyError` when `url` is absent), whose
message only flows into the generic error text. -/
def jsonLoadsUrl (data : String) : Except String String :=
  match data.data.dropWhile isJsonWS with
  | c :: r =>
    if c = Char.ofNat 123 then
      match r.dropWhile isJsonWS with
      | c2 :: r2 =>
        if c2 = Char.ofNat 125 then
          if (r2.dropWhile isJsonWS).isEmpty then .error "KeyError: url"
          else .error "Extra data"
        else
          match jsPairs (data.data.length + 1) r with
          | some (pairs, rest) =>
            if (rest.dropWhile isJsonWS).isEmpty then
              match pairs.lookup "url" with
              | some v => .ok v
              | none => .error "KeyError: url"
            else .error "Extra data"
          | none => .error "Expecting value"
      | [] => .error "Expecting value"
    else .error "Expecting value"
  | [] => .error "Expecting value"

/-- The body of `uni` applied to the bypass response text: return the raw
body when it contains `"message"`, else parse it and take `url`. -/
def uniOnBody (data : String) : Except String String :=
  if containsSub "message" data then .ok data else jsonLoadsUrl data

/-- Classification of the bypass stage's outcome for a response body:
`uni`'s return composed with the caller's `"message" in final_page.lower()`
check on line 193. -/
inductive BypassOutcome where
  | bypassErr (s : String)
  | finalPage (u : String)
  | exn (e : String)
  deriving Repr, DecidableEq

/-- What the resolver does with one bypass response body. -/
def bypassClassify (data : String) : BypassOutcome :=
  match uniOnBody data with
  | .error e => .exn e
  | .ok fp => if containsSub "message" (lowerStr fp) then .bypassErr fp else .finalPage fp

/-- One network call issued by the resolver. -/
inductive NetCall where
  | httpGet (url : String)
  | httpPost (url : String)
  | pageGet (url : String)
  deriving Repr, DecidableEq

/-- A fetched and parsed page: the raw title string
(`soup.title.string or ""`), the parse tree, and the anchors with a
`href` in document order. -/
structure Page where
  titleRaw : String
  doc : BDoc
  anchors : List (Nat × String)

/-- The oracles for the three network operations; `Except.error` is a
raised exception carrying `str(e)`. -/
structure Env where
  getR : String → Except String (String × String)
  postR : String → Except String String
  pageR : String → Except String Page

/-- The page title: collapsed raw title, defaulting to `"All Links"`. -/
def pageTitle (pg : Page) : String :=
  if collapseSpaces pg.titleRaw = "" then "All Links" else collapseSpaces pg.titleRaw

/-- Model of `extract_title_and_labeled_links` on a fetched page. -/
def extractTitleAndLabeledLinks (pg : Page) : String × Grouped :=
  (pageTitle pg, extractLabeledLinks pg.doc pg.anchors)

/-- Model of `uni(url)`: POST to the bypass service, then `uniOnBody`. -/
def uni (env : Env) (url : String) : Except String String :=
  match env.postR url with
  | .error e => .error e
  | .ok data => uniOnBody data

/-- Model of `linkshortify_to_lksfy`: GET following redirects, extract the id,
build the lksfy URL; raises `ValueError` when no id is found. -/
def linkshortifyToLksfy (env : Env) (startUrl : String) : Except String String :=
  match env.getR startUrl with
  | .error e => .error e
  | .ok (fu, body) =>
    match extractIdFromUrl fu body with
    | none => .error "Could not find ?id=… in redirected page."
    | some lid => .ok ("https://lksfy.com/" ++ lid)

/-- The resolver's result triple `(final_page_url_or_error_text,
page_title_or_default, grouped)`. -/
abbrev ResolveResult := String × String × Grouped

/-- The tail of `extract_everything_from_any_input` once `final_page` is
known: the `"message"` check of line 193, then the page extraction with
its `try/except`. -/
def afterFinal (env : Env) (fp : String) (calls : List NetCall) :
    ResolveResult × List NetCall :=
  if containsSub "message" (lowerStr fp) then
    (("[BYPASS API] " ++ fp, "All Links", []), calls)
  else
    match env.pageR fp with
    | .error e =>
      (("[ERROR extracting links] " ++ e, "All Links", []), calls ++ [NetCall.pageGet fp])
    | .ok pg =>
      ((fp, pageTitle pg, extractLabeledLinks pg.doc pg.anchors),
       calls ++ [NetCall.pageGet fp])

/-- The bypass stage: call `uni` and continue; any exception becomes the
generic `[ERROR]` result. -/
def uniStage (env : Env) (lk : String) (calls : List NetCall) :
    ResolveResult × List NetCall :=
  match uni env lk with
  | .error e => (("[ERROR] " ++ e, "All Links", []), calls ++ [NetCall.httpPost lk])
  | .ok fp => afterFinal env fp (calls ++ [NetCall.httpPost lk])

/-- After the host literal: at least one character not in `[^ \n]`. -/
def matchHostRest (host : String) (r : List Char) : Bool :=
  match stripCI host.data r with
  | none => false
  | some (_, r2) =>
    match r2 with
    | c :: _ => !(c = ' ' || c = '\n')
    | [] => false

/-- After `https?`: `://`, the optional `www.`, the host and its tail. -/
def matchAfterScheme (host : String) (r : List Char) : Bool :=
  match stripCI "://".data r with
  | none => false
  | some (_, r2) =>
    (match stripCI "www.".data r2 with
     | some (_, r3) => matchHostRest host r3
     | none => false)
    || matchHostRest host r2

/-- Model of `re.match` of `https?://(?:www\.)?<host-literal>[^ \n]+` with `re.I`;
the optional `s` is taken exactly when present, which agrees with the
regex since `://` cannot start with `s`. -/
def matchScheme (host : String) (s : List Char) : Bool :=
  match stripCI "http".data s with
  | none => false
  | some (_, r1) =>
    match r1 with
    | c :: r2 => if lc c = 's' then matchAfterScheme host r2 else matchAfterScheme host r1
    | [] => false

/-- Model of `LINKSHORTIFY_RE.match(url)`. -/
def matchLinkshortify (u : String) : Bool := matchScheme "linkshortify.com/full?" u.data

/-- Model of `TEJTIME_RE.match(url)`. -/
def matchTejtime (u : String) : Bool := matchScheme "info.tejtime24.com/" u.data

/-- Model of `LKSFY_RE.match(url)`. -/
def matchLksfy (u : String) : Bool := matchScheme "lksfy.com/" u.data

/-- Model of `extract_everything_from_any_input(url)`, paired with the network
calls it issues. -/
def extractEverythingFromAnyInput (env : Env) (url0 : String) :
    ResolveResult × List NetCall :=
  if matchLinkshortify (pyStrip url0) then
    match linkshortifyToLksfy env (pyStrip url0) with
    | .error e =>
      (("[ERROR] " ++ e, "All Links", []), [NetCall.httpGet (pyStrip url0)])
    | .ok lk => uniStage env lk [NetCall.httpGet (pyStrip url0)]
  else if matchTejtime (pyStrip url0) then
    match extractIdFromUrl (pyStrip url0) "" with
    | none => (("[ERROR] Could not extract id from tejtime24 URL.", "All Links", []), [])
    | some lid => uniStage env ("https://lksfy.com/" ++ lid) []
  else if matchLksfy (pyStrip url0) then
    uniStage env (pyStrip url0) []
  else
    (("[ERROR] Please send a linkshortify / tejtime24 / lksfy URL.", "All Links", []), [])

end Bp

namespace Bp

theorem isPrefixOfL_map_lc :
    ∀ (p : List Char), (∀ c ∈ p, lc c = c) →
      ∀ (s : List Char), isPrefixOfL p s = true → isPrefixOfL p (s.map lc) = true := by
  intro p
  induction p with
  | nil => intro _ s _; rfl
  | cons c0 ps ih =>
    intro hp s h
    cases s with
    | nil => simp [isPrefixOfL] at h
    | cons c cs =>
      unfold isPrefixOfL at h
      rw [Bool.and_eq_true] at h
      have hc : c0 = c := by simpa using h.1
      show isPrefixOfL (c0 :: ps) (lc c :: cs.map lc) = true
      unfold isPrefixOfL
      rw [Bool.and_eq_true]
      constructor
      · have : lc c0 = c0 := hp c0 (by simp)
        subst hc
        simp [this]
      · exact ih (fun x hx => hp x (by simp [hx])) cs h.2

theorem containsL_map_lc (p : List Char) (hp : ∀ c ∈ p, lc c = c) :
    ∀ (s : List Char), containsL p s = true → containsL p (s.map lc) = true := by
  intro s
  induction s with
  | nil => intro h; exact h
  | cons c cs ih =>
    intro h
    unfold containsL at h
    rw [Bool.or_eq_true] at h
    show containsL p (lc c :: cs.map lc) = true
    unfold containsL
    rw [Bool.or_eq_true]
    rcases h with h | h
    · exact Or.inl (isPrefixOfL_map_lc p hp (c :: cs) h)
    · exact Or.inr (ih h)

/-- A body containing `"message"` still contains it after `str.lower`. -/
theorem containsSub_message_lower {data : String}
    (h : containsSub "message" data = true) :
    containsSub "message" (lowerStr data) = true :=
  containsL_map_lc "message".data (by decide) data.data h

theorem mem_insertLabel {x z : String} :
    ∀ {l : List String}, z ∈ insertLabel x l → z = x ∨ z ∈ l := by
  intro l
  induction l with
  | nil => intro h; simpa [insertLabel] using h
  | cons y ys ih =>
    intro h
    unfold insertLabel at h
    by_cases hc : labelSortKey x ≤ labelSortKey y
    · rw [if_pos hc] at h
      rcases List.mem_cons.mp h with h' | h'
      · exact Or.inl h'
      · exact Or.inr h'
    · rw [if_neg hc] at h
      rcases List.mem_cons.mp h with h' | h'
      · exact Or.inr (by simp [h'])
      · rcases ih h' with h'' | h''
        · exact Or.inl h''
        · exact Or.inr (by simp [h''])

theorem pairwise_insertLabel (x : String) :
    ∀ {l : List String},
      l.Pairwise (fun a b => labelSortKey a ≤ labelSortKey b) →
      (insertLabel x l).Pairwise (fun a b => labelSortKey a ≤ labelSortKey b) := by
  intro l
  induction l with
  | nil => intro _; simp [insertLabel]
  | cons y ys ih =>
    intro h
    rw [List.pairwise_cons] at h
    unfold insertLabel
    by_cases hc : labelSortKey x ≤ labelSortKey y
    · rw [if_pos hc]
      rw [List.pairwise_cons]
      refine ⟨?_, List.pairwise_cons.mpr h⟩
      intro z hz
      rcases List.mem_cons.mp hz with h' | h'
      · subst h'; exact hc
      · exact le_trans hc (h.1 z h')
    · rw [if_neg hc]
      rw [List.pairwise_cons]
      constructor
      · intro z hz
        rcases mem_insertLabel hz with h' | h'
        · subst h'; omega
        · exact h.1 z h'
      · exact ih h.2

theorem sortLabels_pairwise (ls : List String) :
    (sortLabels ls).Pairwise (fun a b => labelSortKey a ≤ labelSortKey b) := by
  induction ls with
  | nil => simp [sortLabels]
  | cons x ls ih => exact pairwise_insertLabel x ih

theorem perm_insertLabel (x : String) :
    ∀ (l : List String), List.Perm (insertLabel x l) (x :: l) := by
  intro l
  induction l with
  | nil => simp [insertLabel]
  | cons y ys ih =>
    unfold insertLabel
    by_cases hc : labelSortKey x ≤ labelSortKey y
    · rw [if_pos hc]
    · rw [if_neg hc]
      exact List.Perm.trans (List.Perm.cons y ih) (List.Perm.swap x y ys)

theorem sortLabels_perm (ls : List String) : List.Perm (sortLabels ls) ls := by
  induction ls with
  | nil => exact List.Perm.refl []
  | cons x ls ih =>
    exact List.Perm.trans (perm_insertLabel x (sortLabels ls)) (List.Perm.cons x ih)

theorem filter_insertLabel (x : String) (k : Nat) :
    ∀ (l : List String),
      (insertLabel x l).filter (fun s => labelSortKey s == k) =
        if labelSortKey x = k then x :: l.filter (fun s => labelSortKey s == k)
        else l.filter (fun s => labelSortKey s == k) := by
  intro l
  induction l with
  | nil =>
    by_cases hx : labelSortKey x = k
    · simp [insertLabel, List.filter, hx]
    · have hb : (labelSortKey x == k) = false := by simpa using hx
      simp [insertLabel, List.filter, hb, hx]
  | cons y ys ih =>
    unfold insertLabel
    by_cases hc : labelSortKey x ≤ labelSortKey y
    · rw [if_pos hc]
      by_cases hx : labelSortKey x = k
      · simp [List.filter_cons, hx]
      · simp [List.filter_cons, hx]
    · rw [if_neg hc]
      by_cases hx : labelSortKey x = k
      · have hyk : labelSortKey y ≠ k := by omega
        simp [List.filter_cons, hyk, hx, ih]
      · simp [List.filter_cons, hx, ih]

theorem sortLabels_filter (ls : List String) (k : Nat) :
    (sortLabels ls).filter (fun s => labelSortKey s == k) =
      ls.filter (fun s => labelSortKey s == k) := by
  induction ls with
  | nil => rfl
  | cons x ls ih =>
    show (insertLabel x (sortLabels ls)).filter _ = _
    rw [filter_insertLabel]
    by_cases hx : labelSortKey x = k
    · have hb : (labelSortKey x == k) = true := by simpa using hx
      rw [if_pos hx, List.filter_cons, hb]
      simp [ih]
    · have hb : (labelSortKey x == k) = false := by simpa using hx
      rw [if_neg hx, List.filter_cons, hb]
      simp [ih]

end Bp

namespace Bp

theorem afterFinal_cases (env : Env) (fp : String) (calls : List NetCall) :
    ((afterFinal env fp calls).1 = ("[BYPASS API] " ++ fp, "All Links", [])
       ∧ containsSub "message" (lowerStr fp) = true)
    ∨ (∃ m, (afterFinal env fp calls).1 = ("[ERROR extracting links] " ++ m, "All Links", [])
        ∧ env.pageR fp = .error m ∧ containsSub "message" (lowerStr fp) = false)
    ∨ (∃ pg, env.pageR fp = .ok pg
        ∧ (afterFinal env fp calls).1
            = (fp, pageTitle pg, extractLabeledLinks pg.doc pg.anchors)) := by
  unfold afterFinal
  by_cases hm : containsSub "message" (lowerStr fp) = true
  · rw [if_pos hm]
    exact Or.inl ⟨rfl, hm⟩
  · rw [if_neg hm]
    cases hp : env.pageR fp with
    | error e =>
      exact Or.inr (Or.inl ⟨e, rfl, rfl, by simpa using hm⟩)
    | ok pg =>
      exact Or.inr (Or.inr ⟨pg, rfl, rfl⟩)

theorem uniStage_cases (env : Env) (lk : String) (calls : List NetCall) :
    (∃ m, (uniStage env lk calls).1 = ("[ERROR] " ++ m, "All Links", []))
    ∨ (∃ fp, (uniStage env lk calls).1 = (afterFinal env fp (calls ++ [NetCall.httpPost lk])).1) := by
  unfold uniStage
  cases hu : uni env lk with
  | error e => exact Or.inl ⟨e, rfl⟩
  | ok fp => exact Or.inr ⟨fp, rfl⟩

/-- Every outcome of a resolution call: a generic `[ERROR]`, a
`[BYPASS API]` error, an `[ERROR extracting links]` error — all three
with an empty grouped mapping — or a successful extraction. -/
theorem resolver_cases (env : Env) (url : String) :
    (∃ m, (extractEverythingFromAnyInput env url).1 = ("[ERROR] " ++ m, "All Links", []))
    ∨ (∃ s, (extractEverythingFromAnyInput env url).1 = ("[BYPASS API] " ++ s, "All Links", [])
        ∧ containsSub "message" (lowerStr s) = true)
    ∨ (∃ m fp, (extractEverythingFromAnyInput env url).1
          = ("[ERROR extracting links] " ++ m, "All Links", [])
        ∧ env.pageR fp = .error m ∧ containsSub "message" (lowerStr fp) = false)
    ∨ (∃ fp pg, env.pageR fp = .ok pg
        ∧ (extractEverythingFromAnyInput env url).1
            = (fp, pageTitle pg, extractLabeledLinks pg.doc pg.anchors)) := by
  have hstage : ∀ (lk : String) (calls : List NetCall),
      (∃ m, (uniStage env lk calls).1 = ("[ERROR] " ++ m, "All Links", []))
      ∨ (∃ s, (uniStage env lk calls).1 = ("[BYPASS API] " ++ s, "All Links", [])
          ∧ containsSub "message" (lowerStr s) = true)
      ∨ (∃ m fp, (uniStage env lk calls).1
            = ("[ERROR extracting links] " ++ m, "All Links", [])
          ∧ env.pageR fp = .error m ∧ containsSub "message" (lowerStr fp) = false)
      ∨ (∃ fp pg, env.pageR fp = .ok pg
          ∧ (uniStage env lk calls).1
              = (fp, pageTitle pg, extractLabeledLinks pg.doc pg.anchors)) := by
    intro lk calls
    rcases uniStage_cases env lk calls with ⟨m, hm⟩ | ⟨fp, hfp⟩
    · exact Or.inl ⟨m, hm⟩
    · rcases afterFinal_cases env fp (calls ++ [NetCall.httpPost lk]) with
        ⟨ha, hc⟩ | ⟨m, ha, hp, hc⟩ | ⟨pg, hp, ha⟩
      · exact Or.inr (Or.inl ⟨fp, by rw [hfp, ha], hc⟩)
      · exact Or.inr (Or.inr (Or.inl ⟨m, fp, by rw [hfp, ha], hp, hc⟩))
      · exact Or.inr (Or.inr (Or.inr ⟨fp, pg, hp, by rw [hfp, ha]⟩))
  unfold extractEverythingFromAnyInput
  by_cases h1 : matchLinkshortify (pyStrip url) = true
  · rw [if_pos h1]
    cases hl : linkshortifyToLksfy env (pyStrip url) with
    | error e => exact Or.inl ⟨e, rfl⟩
    | ok lk => exact hstage lk [NetCall.httpGet (pyStrip url)]
  · rw [if_neg h1]
    by_cases h2 : matchTejtime (pyStrip url) = true
    · rw [if_pos h2]
      cases hid : extractIdFromUrl (pyStrip url) "" with
      | none => exact Or.inl ⟨"Could not extract id from tejtime24 URL.", rfl⟩
      | some lid => exact hstage ("https://lksfy.com/" ++ lid) []
    · rw [if_neg h2]
      by_cases h3 : matchLksfy (pyStrip url) = true
      · rw [if_pos h3]
        exact hstage (pyStrip url) []
      · rw [if_neg h3]
        exact Or.inl ⟨"Please send a linkshortify / tejtime24 / lksfy URL.", rfl⟩

theorem bypassClassify_bypassErr (data s : String) :
    bypassClassify data = .bypassErr s ↔
      (containsSub "message" data = true ∧ s = data)
      ∨ (containsSub "message" data = false ∧ jsonLoadsUrl data = .ok s
          ∧ containsSub "message" (lowerStr s) = true) := by
  unfold bypassClassify uniOnBody
  cases hc : containsSub "message" data with
  | true =>
    have hlow := containsSub_message_lower hc
    rw [if_pos rfl]
    dsimp only
    rw [hlow, if_pos rfl]
    constructor
    · intro h
      injection h with h1
      exact Or.inl ⟨rfl, h1.symm⟩
    · rintro (⟨_, hs⟩ | ⟨hfalse, _, _⟩)
      · rw [hs]
      · simp at hfalse
  | false =>
    rw [if_neg (by simp)]
    cases hj : jsonLoadsUrl data with
    | error e =>
      dsimp only
      constructor
      · intro h; simp at h
      · rintro (⟨hfalse, _⟩ | ⟨_, hok, _⟩)
        · simp at hfalse
        · simp at hok
    | ok fp =>
      dsimp only
      by_cases hl : containsSub "message" (lowerStr fp) = true
      · rw [if_pos hl]
        constructor
        · intro h
          injection h with h1
          exact Or.inr ⟨rfl, by rw [h1], by rw [← h1]; exact hl⟩
        · rintro (⟨hfalse, _⟩ | ⟨_, hok, _⟩)
          · simp at hfalse
          · injection hok with h2
            rw [h2]
      · rw [if_neg hl]
        constructor
        · intro h; simp at h
        · rintro (⟨hfalse, _⟩ | ⟨_, hok, hlow⟩)
          · simp at hfalse
          · injection hok with h2
            subst h2
            exact absurd hlow hl

theorem bypassClassify_finalPage (data u : String) :
    bypassClassify data = .finalPage u ↔
      containsSub "message" data = false ∧ jsonLoadsUrl data = .ok u
      ∧ containsSub "message" (lowerStr u) = false := by
  unfold bypassClassify uniOnBody
  cases hc : containsSub "message" data with
  | true =>
    have hlow := containsSub_message_lower hc
    rw [if_pos rfl]
    dsimp only
    rw [hlow, if_pos rfl]
    constructor
    · intro h; simp at h
    · rintro ⟨hfalse, _⟩; simp at hfalse
  | false =>
    rw [if_neg (by simp)]
    cases hj : jsonLoadsUrl data with
    | error e =>
      dsimp only
      constructor
      · intro h; simp at h
      · rintro ⟨_, hok, _⟩; simp at hok
    | ok fp =>
      dsimp only
      by_cases hl : containsSub "message" (lowerStr fp) = true
      · rw [if_pos hl]
        constructor
        · intro h; simp at h
        · rintro ⟨_, hok, hlow⟩
          injection hok with h2
          subst h2
          rw [hl] at hlow
          cases hlow
      · rw [if_neg hl]
        constructor
        · intro h
          injection h with h1
          exact ⟨rfl, by rw [h1], by rw [← h1]; simpa using hl⟩
        · rintro ⟨_, hok, _⟩
          injection hok with h2
          rw [h2]

end Bp

namespace Bp

/-! ### Concrete fixtures for witnesses and counterexamples -/

/-- A one-node document whose only anchor text carries no episode label. -/
def docNoLabel : BDoc := ⟨[⟨true, true, "just a download button", none, none⟩]⟩

/-- Two anchors with the same chat href under two different labels. -/
def docDup : BDoc :=
  ⟨[⟨true, true, "Episode 1", none, none⟩, ⟨true, true, "Episode 2", none, none⟩]⟩

/-- The anchors of `docDup`, in document order. -/
def anchorsDup : List (Nat × String) := [(0, "https://t.me/a"), (1, "https://t.me/a")]

/-- A bypass body without the lowercase substring `"message"` whose url
contains `"Message"`. -/
def bodyMixedCase : String := "\x7b\"url\":\"https://x.com/Message\"\x7d"

/-- An environment whose bypass succeeds and whose page fetch raises. -/
def envExtractFail : Env :=
  ⟨fun _ => .error "E", fun _ => .ok "\x7b\"url\":\"https://x.y/p\"\x7d",
   fun _ => .error "boom"⟩

/-- An environment whose redirect lands on a URL with an `xid` parameter
and an empty body. -/
def envShapeA : Env :=
  ⟨fun _ => .ok ("https://h/p?xid=ZZ", ""), fun _ => .error "na", fun _ => .error "na"⟩

/-- An environment every oracle of which raises. -/
def envInert : Env := ⟨fun _ => .error "x", fun _ => .error "x", fun _ => .error "x"⟩

/-! ### The claims -/

/-- C1: the label associator is total and searches in exactly the
specified order — the anchor's own collapsed text, up to 8 preceding
siblings that expose text (nearest first), then up to 4 ancestor levels
(the ancestor's full collapsed text, then up to 6 of its preceding
siblings), returning the first Label-Matcher hit and the sentinel
`"Episode ?"` when no candidate matches — for every anchor of a
well-formed parsed document. -/
theorem claimC1_associator_search_order (d : BDoc) (a : Nat) (hwf : wfB d = true) :
    guessLabelForAnchor d a = (firstHit (specCandidates d a)).getD "Episode ?" :=
  guessLabel_eq_spec hwf a

theorem claimC1_associator_search_order_witness :
    wfB docNoLabel = true
    ∧ guessLabelForAnchor docNoLabel 0 = (firstHit (specCandidates docNoLabel 0)).getD "Episode ?"
    ∧ guessLabelForAnchor docNoLabel 0 = "Episode ?" :=
  ⟨by decide, claimC1_associator_search_order docNoLabel 0 (by decide), by decide⟩

/-- C2: global per-category de-duplication — for every page, each label's
chat list is exactly the first-seen-ordered distinct chat links whose
first carrying anchor has that label (likewise for storage links), so
every normalized link appears at most once per category across all
labels, lists are in first-seen document order, and a duplicated link is
attributed to the label of the first anchor carrying it. -/
theorem claimC2_global_dedup (doc : BDoc) (anchors : List (Nat × String)) :
    (∀ L, tgOf (extractLabeledLinks doc anchors) L
        = (specTgSeq anchors).filter (fun l => firstTgLabel doc anchors l == some L))
    ∧ (∀ L, drOf (extractLabeledLinks doc anchors) L
        = (specDrSeq anchors).filter (fun l => firstDrLabel doc anchors l == some L))
    ∧ (∀ l, countTg (extractLabeledLinks doc anchors) l ≤ 1
        ∧ countDr (extractLabeledLinks doc anchors) l ≤ 1) := by
  obtain ⟨h1, h2, h3, h4, h5, h6⟩ := extract_inv doc anchors
  exact ⟨h3, h4, fun l => ⟨(h5 l).1, (h6 l).1⟩⟩

/-- C3 counterexample: a bypass body that does not contain the substring
`"message"` still fails the bypass stage, and what the failure carries is
the parsed url, not the raw body — refuting the claimed `if and only if`. -/
theorem claimC3_counterexample :
    containsSub "message" bodyMixedCase = false
    ∧ bypassClassify bodyMixedCase = .bypassErr "https://x.com/Message"
    ∧ ("https://x.com/Message" : String) ≠ bodyMixedCase :=
  ⟨by decide, by decide, by decide⟩

/-- C3 amended: the bypass stage fails with the raw body exactly when the
body contains `"message"` case-sensitively; otherwise the body is parsed
and the `url` field becomes the final page URL unless its lower-casing
contains `"message"`, in which case the stage fails carrying that url. -/
theorem claimC3_bypass_message_rule (data s u : String) :
    (bypassClassify data = .bypassErr s ↔
      (containsSub "message" data = true ∧ s = data)
      ∨ (containsSub "message" data = false ∧ jsonLoadsUrl data = .ok s
          ∧ containsSub "message" (lowerStr s) = true))
    ∧ (bypassClassify data = .finalPage u ↔
        containsSub "message" data = false ∧ jsonLoadsUrl data = .ok u
        ∧ containsSub "message" (lowerStr u) = false) :=
  ⟨bypassClassify_bypassErr data s, bypassClassify_finalPage data u⟩

/-- C4: every resolution outcome is either a tagged error with an empty
grouped mapping — generic `[ERROR]`, `[BYPASS API]` carrying the string
that produced the failure, or `[ERROR extracting links]` carrying only
the exception message — or a successful extraction. -/
theorem claimC4_failure_empty_grouped (env : Env) (url : String) :
    (∃ m, (extractEverythingFromAnyInput env url).1 = ("[ERROR] " ++ m, "All Links", []))
    ∨ (∃ s, (extractEverythingFromAnyInput env url).1 = ("[BYPASS API] " ++ s, "All Links", [])
        ∧ containsSub "message" (lowerStr s) = true)
    ∨ (∃ m fp, (extractEverythingFromAnyInput env url).1
          = ("[ERROR extracting links] " ++ m, "All Links", [])
        ∧ env.pageR fp = .error m ∧ containsSub "message" (lowerStr fp) = false)
    ∨ (∃ fp pg, env.pageR fp = .ok pg
        ∧ (extractEverythingFromAnyInput env url).1
            = (fp, pageTitle pg, extractLabeledLinks pg.doc pg.anchors)) :=
  resolver_cases env url

/-- C4 counterexample: an extraction failure reports only the exception
message; the final page URL that produced it appears nowhere in the
error result, refuting the claim that ExtractionError still reports it. -/
theorem claimC4_counterexample :
    extractEverythingFromAnyInput envExtractFail "https://lksfy.com/abc"
      = (("[ERROR extracting links] boom", "All Links", []),
         [NetCall.httpPost "https://lksfy.com/abc", NetCall.pageGet "https://x.y/p"])
    ∧ containsSub "https://x.y/p" "[ERROR extracting links] boom" = false :=
  ⟨rfl, by decide⟩

/-- C5 counterexample: the source's URL regex requires `id=` to be
preceded by `?` or `&`, while the body regex does not — they are not the
same regex.  On a redirect landing at `?xid=ZZ` with an empty body the
claim's algorithm extracts `"ZZ"` but the code finds nothing and the
resolution fails with the InputError message. -/
theorem claimC5_counterexample :
    extractIdFromUrl "https://h/p?xid=ZZ" "" = none
    ∧ specIdExtract "https://h/p?xid=ZZ" "" = some "ZZ"
    ∧ extractEverythingFromAnyInput envShapeA "https://linkshortify.com/full?x=1"
        = (("[ERROR] Could not find ?id=… in redirected page.", "All Links", []),
           [NetCall.httpGet "https://linkshortify.com/full?x=1"]) :=
  ⟨by decide, by decide, rfl⟩

/-- C5 amended: the ShapeA id is extracted by checking, in order and
taking the first present, the URL's query parameter `id`, then the
`[?&]id=` regex over the URL, then the bare `id=` regex over the body;
when all three fail the resolution fails with the InputError message. -/
theorem claimC5_id_priority :
    (∀ u body v, qsId u = some v → extractIdFromUrl u body = some v)
    ∧ (∀ u body v, qsId u = none → urlIdSearch u.data = some v →
        extractIdFromUrl u body = some ⟨v⟩)
    ∧ (∀ u body v, qsId u = none → urlIdSearch u.data = none →
        bareIdSearch body.data = some v → extractIdFromUrl u body = some ⟨v⟩)
    ∧ (∀ u body, qsId u = none → urlIdSearch u.data = none →
        bareIdSearch body.data = none → extractIdFromUrl u body = none)
    ∧ (∀ (env : Env) (url fu bodyS : String),
        matchLinkshortify (pyStrip url) = true →
        env.getR (pyStrip url) = .ok (fu, bodyS) →
        extractIdFromUrl fu bodyS = none →
        extractEverythingFromAnyInput env url
          = (("[ERROR] Could not find ?id=… in redirected page.", "All Links", []),
             [NetCall.httpGet (pyStrip url)])) := by
  refine ⟨?_, ?_, ?_, ?_, ?_⟩
  · intro u body v h
    unfold extractIdFromUrl
    rw [h]
  · intro u body v h1 h2
    unfold extractIdFromUrl
    rw [h1]
    dsimp only
    rw [h2]
  · intro u body v h1 h2 h3
    unfold extractIdFromUrl
    rw [h1]
    dsimp only
    rw [h2]
    dsimp only
    rw [h3]
  · intro u body h1 h2 h3
    unfold extractIdFromUrl
    rw [h1]
    dsimp only
    rw [h2]
    dsimp only
    rw [h3]
  · intro env url fu bodyS hm hget hid
    unfold extractEverythingFromAnyInput
    rw [if_pos hm]
    unfold linkshortifyToLksfy
    rw [hget]
    dsimp only
    rw [hid]
    dsimp only
    rfl

theorem claimC5_id_priority_witness :
    qsId "https://x.y/a?id=abc123" = some "abc123"
    ∧ extractIdFromUrl "https://x.y/a?id=abc123" "" = some "abc123" :=
  ⟨by decide, claimC5_id_priority.1 "https://x.y/a?id=abc123" "" "abc123" (by decide)⟩

/-- C6: an input URL matching none of the three host patterns fails
immediately with the InputError message, an empty grouped mapping, and
an empty network-call log. -/
theorem claimC6_unrecognized_no_network (env : Env) (url : String)
    (h1 : matchLinkshortify (pyStrip url) = false)
    (h2 : matchTejtime (pyStrip url) = false)
    (h3 : matchLksfy (pyStrip url) = false) :
    extractEverythingFromAnyInput env url
      = (("[ERROR] Please send a linkshortify / tejtime24 / lksfy URL.", "All Links", []),
         []) := by
  unfold extractEverythingFromAnyInput
  rw [if_neg (by simp [h1]), if_neg (by simp [h2]), if_neg (by simp [h3])]

theorem claimC6_unrecognized_no_network_witness :
    matchLinkshortify (pyStrip "https://example.com/not-supported") = false
    ∧ matchTejtime (pyStrip "https://example.com/not-supported") = false
    ∧ matchLksfy (pyStrip "https://example.com/not-supported") = false
    ∧ extractEverythingFromAnyInput envInert "https://example.com/not-supported"
        = (("[ERROR] Please send a linkshortify / tejtime24 / lksfy URL.", "All Links", []),
           []) :=
  ⟨by decide, by decide, by decide,
   claimC6_unrecognized_no_network envInert "https://example.com/not-supported"
     (by decide) (by decide) (by decide)⟩

/-- C7 counterexample: a label whose first integer is `10**9 + 1` sorts
after the no-integer label `"Episode ?"`, because no-integer labels get
the sentinel key `10**9` rather than sorting last. -/
theorem claimC7_counterexample :
    sortLabels ["Episode 1000000001", "Episode ?"] = ["Episode ?", "Episode 1000000001"]
    ∧ firstNat "Episode ?".data = none
    ∧ firstNat "Episode 1000000001".data = some 1000000001 :=
  ⟨by decide, by decide, by decide⟩

/-- C7 amended: the assembler stably sorts labels ascending by key,
where the key is the first integer of the label and `10**9` for labels
with none — so no-integer labels sort after every label whose first
integer is below `10**9` (not after every integer-bearing label), labels
of equal key (no-integer labels in particular) keep insertion order, and
the spec's example sorts as stated. -/
theorem claimC7_label_sort :
    (∀ ls, (sortLabels ls).Pairwise (fun a b => labelSortKey a ≤ labelSortKey b))
    ∧ (∀ ls, List.Perm (sortLabels ls) ls)
    ∧ (∀ ls k, (sortLabels ls).filter (fun l => labelSortKey l == k)
        = ls.filter (fun l => labelSortKey l == k))
    ∧ sortLabels ["Episode 37", "Episode 2", "Episode ?"]
        = ["Episode 2", "Episode 37", "Episode ?"] :=
  ⟨sortLabels_pairwise, sortLabels_perm, sortLabels_filter, by decide⟩

/-- C8 counterexample: the code zero-pads the second number of a range
(`int(b):02d`), so `"Episode 1-6"` abbreviates to `"E01-06"`, not to the
`"E01-6"` the claim's unpadded-second-number reading gives. -/
theorem claimC8_counterexample :
    abbrLabel "Episode 1-6" = "E01-06"
    ∧ abbrLabelSpec "Episode 1-6" = "E01-6"
    ∧ ("E01-06" : String) ≠ "E01-6" :=
  ⟨by decide, by decide, by decide⟩

/-- C8 amended: abbreviation re-matches the episode pattern and formats
both captured numbers with two-digit zero-padding, passing non-matching
labels through unchanged; the spec's concrete examples hold. -/
theorem claimC8_abbreviation :
    (∀ label, abbrSearch label.data = none → abbrLabel label = label)
    ∧ (∀ label d1 d2, abbrSearch label.data = some (d1, some d2) →
        abbrLabel label = "E" ++ pad2 (digitsToNat d1) ++ "-" ++ pad2 (digitsToNat d2))
    ∧ abbrLabel "Episode 01-06" = "E01-06"
    ∧ abbrLabel "Episode 37" = "E37"
    ∧ abbrLabel "Random Heading" = "Random Heading" := by
  refine ⟨?_, ?_, by decide, by decide, by decide⟩
  · intro label h
    unfold abbrLabel
    rw [h]
  · intro label d1 d2 h
    unfold abbrLabel
    rw [h]

theorem claimC8_abbreviation_witness :
    abbrSearch "Random Heading".data = none
    ∧ abbrLabel "Random Heading" = "Random Heading" :=
  ⟨by decide, claimC8_abbreviation.1 "Random Heading" (by decide)⟩

/-- C9: link classification is idempotent — re-classifying a link either
cleaner returned yields that same link. -/
theorem claimC9_classification_idempotent (u l : String) :
    (cleanTgUrl u = some l → cleanTgUrl l = some l)
    ∧ (cleanDriveUrl u = some l → cleanDriveUrl l = some l) :=
  ⟨cleanTg_stable, cleanDrive_stable⟩

theorem claimC9_classification_idempotent_witness :
    cleanTgUrl " https://t.me/abc<junk" = some "https://t.me/abc"
    ∧ cleanTgUrl "https://t.me/abc" = some "https://t.me/abc"
    ∧ cleanDriveUrl "https://drive.google.com/file/d/x y" = some "https://drive.google.com/file/d/x"
    ∧ cleanDriveUrl "https://drive.google.com/file/d/x" = some "https://drive.google.com/file/d/x" :=
  ⟨by decide,
   (claimC9_classification_idempotent " https://t.me/abc<junk" "https://t.me/abc").1 (by decide),
   by decide,
   (claimC9_classification_idempotent "https://drive.google.com/file/d/x y"
      "https://drive.google.com/file/d/x").2 (by decide)⟩

/-- C10: a label entry with both category lists empty occurs — the second
anchor carries an already-seen chat link under a new label, whose entry
is created by `setdefault` before the de-duplication check drops the
link. -/
theorem claimC10_empty_label_entry :
    extractLabeledLinks docDup anchorsDup
      = [("Episode 1", (["https://t.me/a"], [])), ("Episode 2", ([], []))] := by
  decide

end Bp
